import Mathlib

/-!
Verification of the TinyLang compiler backend.

This file gives a shallow embedding of the compiler backend found in
src/tinylang_compiler/src/semantic_codegen.py (symbol table, semantic
analyzer, three-address-code generator, TAC optimizer, bytecode emitter
and stack virtual machine) together with the AST produced by the
frontend in src/tinylang_compiler/src/lexer_parser.py, and proves or
refutes the specification claims about them.

Python-specific conventions reflected in the embedding:
* Python's `bool` is a subtype of `int` (`isinstance(True, int)` holds,
  `True == 1`, `str(True) = "True"`); runtime values are therefore
  modelled by `Atom`, which keeps integers, booleans and strings apart.
* Python dictionaries are modelled as association lists where the most
  recent binding is prepended; `List.lookup` then returns the current
  value, matching dictionary reads.
* Python `//` and `%` are floored division and floored modulus, i.e.
  `Int.fdiv` and `Int.fmod`.
-/

/-- A Python runtime value as it appears in TAC operands, bytecode
arguments, the VM stack and the VM variable environment: an integer,
a boolean, or a string (variable / temporary / label name). -/
inductive Atom where
  | intv  (n : Int)
  | boolv (b : Bool)
  | strv  (s : String)
  deriving DecidableEq, Repr

/-- Numeric value of an atom when Python's `isinstance(x, int)` holds
(`True` counts as `1`, `False` as `0`); `none` for strings. -/
def Atom.toInt : Atom → Option Int
  | .intv n  => some n
  | .boolv b => some (if b then 1 else 0)
  | .strv _  => none

/-- Python's `isinstance(x, int)`, which is true for `bool` values too. -/
def isIntInstance : Option Atom → Bool
  | some (Atom.intv _)  => true
  | some (Atom.boolv _) => true
  | _ => false

/-- Python's `s.startswith('t')`: the first character is `t`. -/
def startsWithT (s : String) : Bool :=
  match s.data with
  | c :: _ => c = 't'
  | [] => false

/-- TAC operation kinds (class `TACOp`). -/
inductive TACOp where
  | ADD | SUB | MUL | DIV | MOD | NEG
  | LT | GT | LTE | GTE | EQ | NEQ
  | AND | OR | NOT
  | ASSIGN | COPY
  | LABEL | GOTO | IF_FALSE | IF_TRUE
  | PRINT
  deriving DecidableEq, Repr

/-- A three-address-code quadruple (class `TACInstruction`). -/
structure TACInstruction where
  op : TACOp
  arg1 : Option Atom
  arg2 : Option Atom
  result : Option String
  deriving DecidableEq, Repr

/-- The five ops folded by `TACOptimizer.constant_folding`. -/
def isArithOp (op : TACOp) : Bool :=
  op = TACOp.ADD ∨ op = TACOp.SUB ∨ op = TACOp.MUL ∨ op = TACOp.DIV ∨ op = TACOp.MOD

/-- `constants.get(x, x)`: resolve an operand through the constant map;
string names resolve to their mapped value when present, every other
operand is returned unchanged. -/
def resolveConst (constants : List (String × Atom)) : Option Atom → Option Atom
  | some (Atom.strv s) =>
      match constants.lookup s with
      | some v => some v
      | none => some (Atom.strv s)
  | a => a

/-- Arithmetic used by the folder; division and modulus by zero give 0
(`val1 // val2 if val2 != 0 else 0`).  Only ever applied to the five
arithmetic ops. -/
def foldArith (op : TACOp) (v1 v2 : Int) : Int :=
  match op with
  | TACOp.ADD => v1 + v2
  | TACOp.SUB => v1 - v2
  | TACOp.MUL => v1 * v2
  | TACOp.DIV => if v2 ≠ 0 then Int.fdiv v1 v2 else 0
  | TACOp.MOD => if v2 ≠ 0 then Int.fmod v1 v2 else 0
  | _ => 0

/-- Record `constants[result] = value`.  The source would use `None` as a
dictionary key when `result` is absent; such instructions are never
produced by the generator, and we skip the insertion. -/
def cfRecord (constants : List (String × Atom)) (result : Option String) (v : Atom) :
    List (String × Atom) :=
  match result with
  | some s => (s, v) :: constants
  | none => constants

/-- One iteration of the `constant_folding` loop: returns the emitted
instruction and the updated constant map. -/
def cfOne (constants : List (String × Atom)) (instr : TACInstruction) :
    TACInstruction × List (String × Atom) :=
  if instr.op = TACOp.ASSIGN ∧ isIntInstance instr.arg1 = true then
    match instr.arg1 with
    | some a => (instr, cfRecord constants instr.result a)
    | none => (instr, constants)
  else if isArithOp instr.op then
    let val1 := resolveConst constants instr.arg1
    let val2 := resolveConst constants instr.arg2
    match val1, val2 with
    | some a1, some a2 =>
        match a1.toInt, a2.toInt with
        | some v1, some v2 =>
            let r := foldArith instr.op v1 v2
            (⟨TACOp.ASSIGN, some (Atom.intv r), none, instr.result⟩,
             cfRecord constants instr.result (Atom.intv r))
        | _, _ => (instr, constants)
    | _, _ => (instr, constants)
  else (instr, constants)

/-- The `constant_folding` loop over the instruction list, threading the
constant map. -/
def cfLoop (constants : List (String × Atom)) :
    List TACInstruction → List TACInstruction × List (String × Atom)
  | [] => ([], constants)
  | i :: rest =>
      let (i', constants') := cfOne constants i
      let (tail, final) := cfLoop constants' rest
      (i' :: tail, final)

/-- `TACOptimizer.constant_folding`. -/
def constant_folding (instructions : List TACInstruction) : List TACInstruction :=
  (cfLoop [] instructions).1

/-- The constant map built by `constant_folding` after processing the
whole list (the local variable `constants` at the end of the loop). -/
def cfConstants (instructions : List TACInstruction) : List (String × Atom) :=
  (cfLoop [] instructions).2

/-- The names contributed to `used_vars` by one instruction:
`if instr.arg1 and isinstance(instr.arg1, str)` — a string operand
counts only when non-empty (Python truthiness). -/
def usedOf (instr : TACInstruction) : List String :=
  (match instr.arg1 with
   | some (Atom.strv s) => if s ≠ "" then [s] else []
   | _ => []) ++
  (match instr.arg2 with
   | some (Atom.strv s) => if s ≠ "" then [s] else []
   | _ => [])

/-- First pass of `dead_code_elimination`: collect all used operand
names (the source uses a set; only membership matters). -/
def collectUsed : List TACInstruction → List String
  | [] => []
  | i :: rest => usedOf i ++ collectUsed rest

/-- `instr.result and instr.result.startswith('t')` (with Python
truthiness of the optional string). -/
def isTempResult (result : Option String) : Bool :=
  match result with
  | some s => s ≠ "" && startsWithT s
  | none => false

/-- Second pass of `dead_code_elimination`: keep an instruction unless it
is an `ASSIGN` to a `t`-prefixed name that is not in `used_vars`. -/
def dceLoop (used_vars : List String) : List TACInstruction → List TACInstruction
  | [] => []
  | i :: rest =>
      if i.op = TACOp.ASSIGN ∧ isTempResult i.result = true then
        if (match i.result with
            | some s => decide (s ∈ used_vars)
            | none => true) = true
        then i :: dceLoop used_vars rest
        else dceLoop used_vars rest
      else i :: dceLoop used_vars rest

/-- `TACOptimizer.dead_code_elimination`. -/
def dead_code_elimination (instructions : List TACInstruction) : List TACInstruction :=
  dceLoop (collectUsed instructions) instructions

/-- Python `x == 0` over an optional operand: matches the integer `0`
and `False` (which Python considers equal to `0`). -/
def eqZeroA : Option Atom → Bool
  | some (Atom.intv n) => n = 0
  | some (Atom.boolv b) => !b
  | _ => false

/-- Python `x == 1` over an optional operand: matches `1` and `True`. -/
def eqOneA : Option Atom → Bool
  | some (Atom.intv n) => n = 1
  | some (Atom.boolv b) => b
  | _ => false

/-- One instruction of `algebraic_simplification` (x+0=x, x*1=x, x*0=0). -/
def algSimpOne (instr : TACInstruction) : TACInstruction :=
  if instr.op = TACOp.ADD then
    if eqZeroA instr.arg2 then ⟨TACOp.COPY, instr.arg1, none, instr.result⟩
    else if eqZeroA instr.arg1 then ⟨TACOp.COPY, instr.arg2, none, instr.result⟩
    else instr
  else if instr.op = TACOp.MUL then
    if eqOneA instr.arg2 then ⟨TACOp.COPY, instr.arg1, none, instr.result⟩
    else if eqOneA instr.arg1 then ⟨TACOp.COPY, instr.arg2, none, instr.result⟩
    else if eqZeroA instr.arg2 || eqZeroA instr.arg1 then
      ⟨TACOp.ASSIGN, some (Atom.intv 0), none, instr.result⟩
    else instr
  else instr

/-- `TACOptimizer.algebraic_simplification`. -/
def algebraic_simplification (instructions : List TACInstruction) : List TACInstruction :=
  instructions.map algSimpOne

/-- `TACOptimizer.optimize`: constant folding, then dead-code
elimination, then algebraic simplification. -/
def optimize (instructions : List TACInstruction) : List TACInstruction :=
  algebraic_simplification (dead_code_elimination (constant_folding instructions))

/-! ### AST (lexer_parser.py)

The frontend's `ASTBuilder` constructs `BinaryOp`/`UnaryOp` nodes with
operator strings drawn from a fixed set and `Literal` nodes whose value
and `lit_type` are coupled (`int` value with `'int'`, `bool` value with
`'bool'`); the embedding enumerates those cases.  Statement blocks are
embedded as the mutually inductive `StmtList` (the source uses Python
lists). -/

/-- Binary operator of a `BinaryOp` node. -/
inductive BinOpKind where
  | add | sub | mul | div | mod
  | lt | gt | lte | gte | eq | neq
  | land | lor
  deriving DecidableEq, Repr

/-- Unary operator of a `UnaryOp` node (`-` or `!`). -/
inductive UnOpKind where
  | neg | lnot
  deriving DecidableEq, Repr

/-- Operator string of a binary operator, as stored in the AST node. -/
def BinOpKind.str : BinOpKind → String
  | .add => "+" | .sub => "-" | .mul => "*" | .div => "/" | .mod => "%"
  | .lt => "<" | .gt => ">" | .lte => "<=" | .gte => ">="
  | .eq => "==" | .neq => "!="
  | .land => "&&" | .lor => "||"

/-- Expression AST nodes (`BinaryOp`, `UnaryOp`, `Literal`, `Variable`). -/
inductive Expr where
  | binop (op : BinOpKind) (left right : Expr)
  | unop (op : UnOpKind) (operand : Expr)
  | litInt (n : Int)
  | litBool (b : Bool)
  | varRef (nm : String)
  deriving DecidableEq, Repr

mutual
/-- Statement AST nodes (`VarDecl`, `Assignment`, `IfStmt`, `WhileStmt`,
`PrintStmt`). -/
inductive Stmt where
  | varDecl (var_type : String) (nm : String) (value : Option Expr)
  | assign (nm : String) (value : Expr)
  | ifStmt (condition : Expr) (then_block : StmtList) (else_block : Option StmtList)
  | whileStmt (condition : Expr) (body : StmtList)
  | printStmt (expression : Expr)
/-- A block / program body: an ordered sequence of statements. -/
inductive StmtList where
  | nil
  | cons (s : Stmt) (rest : StmtList)
end

/-! ### TAC generator (class `TACGenerator`) -/

/-- Generator state: emitted instructions plus the temp and label
counters. -/
structure GenState where
  instrs : List TACInstruction
  temp_counter : Nat
  label_counter : Nat
  deriving Repr

/-- The `op_map` of `TACGenerator.generate` for binary operators. -/
def tacOpOfBin : BinOpKind → TACOp
  | .add => .ADD | .sub => .SUB | .mul => .MUL | .div => .DIV | .mod => .MOD
  | .lt => .LT | .gt => .GT | .lte => .LTE | .gte => .GTE
  | .eq => .EQ | .neq => .NEQ
  | .land => .AND | .lor => .OR

/-- The `op_map` of `TACGenerator.generate` for unary operators. -/
def tacOpOfUn : UnOpKind → TACOp
  | .neg => .NEG
  | .lnot => .NOT

/-- `TACGenerator.generate` on expressions: returns the updated state
and the name (temporary or variable) holding the value. -/
def genExpr : GenState → Expr → GenState × String
  | st, Expr.litInt n =>
      let t := "t" ++ Nat.repr st.temp_counter
      ({ st with
          instrs := st.instrs ++ [⟨TACOp.ASSIGN, some (Atom.intv n), none, some t⟩],
          temp_counter := st.temp_counter + 1 }, t)
  | st, Expr.litBool b =>
      let t := "t" ++ Nat.repr st.temp_counter
      ({ st with
          instrs := st.instrs ++ [⟨TACOp.ASSIGN, some (Atom.boolv b), none, some t⟩],
          temp_counter := st.temp_counter + 1 }, t)
  | st, Expr.varRef nm => (st, nm)
  | st, Expr.binop op l r =>
      let (st1, ln) := genExpr st l
      let (st2, rn) := genExpr st1 r
      let t := "t" ++ Nat.repr st2.temp_counter
      ({ st2 with
          instrs := st2.instrs ++
            [⟨tacOpOfBin op, some (Atom.strv ln), some (Atom.strv rn), some t⟩],
          temp_counter := st2.temp_counter + 1 }, t)
  | st, Expr.unop op e =>
      let (st1, en) := genExpr st e
      let t := "t" ++ Nat.repr st1.temp_counter
      ({ st1 with
          instrs := st1.instrs ++ [⟨tacOpOfUn op, some (Atom.strv en), none, some t⟩],
          temp_counter := st1.temp_counter + 1 }, t)

mutual
/-- `TACGenerator.generate` on statements. -/
def genStmt : GenState → Stmt → GenState
  | st, Stmt.varDecl _ _ none => st
  | st, Stmt.varDecl _ nm (some e) =>
      let (st1, v) := genExpr st e
      { st1 with instrs := st1.instrs ++ [⟨TACOp.ASSIGN, some (Atom.strv v), none, some nm⟩] }
  | st, Stmt.assign nm e =>
      let (st1, v) := genExpr st e
      { st1 with instrs := st1.instrs ++ [⟨TACOp.ASSIGN, some (Atom.strv v), none, some nm⟩] }
  | st, Stmt.ifStmt c tb eb =>
      let (st1, cn) := genExpr st c
      let elseL := "L" ++ Nat.repr st1.label_counter
      let endL := "L" ++ Nat.repr (st1.label_counter + 1)
      let st2 := { st1 with
          label_counter := st1.label_counter + 2,
          instrs := st1.instrs ++ [⟨TACOp.IF_FALSE, some (Atom.strv cn), none, some elseL⟩] }
      let st3 := genStmts st2 tb
      let st4 := { st3 with
          instrs := st3.instrs ++
            [⟨TACOp.GOTO, none, none, some endL⟩, ⟨TACOp.LABEL, none, none, some elseL⟩] }
      let st5 := match eb with
        | some el => genStmts st4 el
        | none => st4
      { st5 with instrs := st5.instrs ++ [⟨TACOp.LABEL, none, none, some endL⟩] }
  | st, Stmt.whileStmt c body =>
      let startL := "L" ++ Nat.repr st.label_counter
      let endL := "L" ++ Nat.repr (st.label_counter + 1)
      let st0 := { st with
          label_counter := st.label_counter + 2,
          instrs := st.instrs ++ [⟨TACOp.LABEL, none, none, some startL⟩] }
      let (st1, cn) := genExpr st0 c
      let st2 := { st1 with
          instrs := st1.instrs ++ [⟨TACOp.IF_FALSE, some (Atom.strv cn), none, some endL⟩] }
      let st3 := genStmts st2 body
      { st3 with
          instrs := st3.instrs ++
            [⟨TACOp.GOTO, none, none, some startL⟩, ⟨TACOp.LABEL, none, none, some endL⟩] }
  | st, Stmt.printStmt e =>
      let (st1, v) := genExpr st e
      { st1 with instrs := st1.instrs ++ [⟨TACOp.PRINT, some (Atom.strv v), none, none⟩] }
/-- `TACGenerator.generate` on a statement sequence. -/
def genStmts : GenState → StmtList → GenState
  | st, StmtList.nil => st
  | st, StmtList.cons s rest => genStmts (genStmt st s) rest
end

/-- TAC generation for a whole program with fresh counters. -/
def tacGen (p : StmtList) : List TACInstruction :=
  (genStmts ⟨[], 0, 0⟩ p).instrs

/-! ### Symbol table and semantic analyzer (classes `SymbolTable`,
`SemanticAnalyzer`)

The source keeps the scope stack as a list with the global scope first
and indexes from `current_scope = len(scopes) - 1`; the embedding keeps
the innermost scope at the head of the list, so `enter_scope` pushes and
`exit_scope` pops at the head, and lookup walks the list front to back
(innermost outward), exactly as the source's reversed index loop. -/

/-- A symbol-table entry (dataclass `Symbol`). -/
structure SymbolEntry where
  name : String
  var_type : String
  scope_level : Nat
  initialized : Bool
  deriving DecidableEq, Repr

/-- Analyzer state: the symbol-table scope stack (innermost first) and
the accumulated error messages. -/
structure AState where
  scopes : List (List (String × SymbolEntry))
  errors : List String
  deriving DecidableEq, Repr

/-- `SymbolTable.declare`: fails (and leaves the table unchanged) when
the name is already bound in the current scope, else inserts a symbol
at `scope_level = len(scopes) - 1`. -/
def declare (st : AState) (name var_type : String) : Bool × AState :=
  match st.scopes with
  | [] => (false, st)
  | cur :: rest =>
      if (cur.lookup name).isSome then (false, st)
      else (true,
        { st with scopes :=
            ((name, ⟨name, var_type, st.scopes.length - 1, true⟩) :: cur) :: rest })

/-- `SymbolTable.lookup`: search from the innermost scope outward, first
hit wins. -/
def lookupSym : List (List (String × SymbolEntry)) → String → Option SymbolEntry
  | [], _ => none
  | cur :: rest, name =>
      match cur.lookup name with
      | some s => some s
      | none => lookupSym rest name

/-- `SymbolTable.enter_scope`. -/
def enterScope (st : AState) : AState :=
  { st with scopes := [] :: st.scopes }

/-- `SymbolTable.exit_scope`: pops only when `current_scope > 0`. -/
def exitScope (st : AState) : AState :=
  match st.scopes with
  | _ :: b :: rest => { st with scopes := b :: rest }
  | _ => st

/-- A single-quote character, used to rebuild the source's f-string
error messages. -/
def squote : String := String.mk [Char.ofNat 39]

/-- `f"Variable '{name}' already declared in this scope"`. -/
def redeclMsg (name : String) : String :=
  "Variable " ++ squote ++ name ++ squote ++ " already declared in this scope"

/-- `f"Undeclared variable '{name}'"`. -/
def undeclMsg (name : String) : String :=
  "Undeclared variable " ++ squote ++ name ++ squote

/-- `f"Type mismatch: cannot assign {value_type} to {var_type} variable '{name}'"`. -/
def typeMismatchMsg (value_type var_type name : String) : String :=
  "Type mismatch: cannot assign " ++ value_type ++ " to " ++ var_type ++
    " variable " ++ squote ++ name ++ squote

/-- `f"Arithmetic operator '{op}' requires int operands"`. -/
def arithOpMsg (op : BinOpKind) : String :=
  "Arithmetic operator " ++ squote ++ op.str ++ squote ++ " requires int operands"

/-- `f"Comparison operator '{op}' requires int operands"`. -/
def cmpOpMsg (op : BinOpKind) : String :=
  "Comparison operator " ++ squote ++ op.str ++ squote ++ " requires int operands"

/-- `f"Comparison requires same types, got {left_type} and {right_type}"`. -/
def eqOpMsg (lt rt : String) : String :=
  "Comparison requires same types, got " ++ lt ++ " and " ++ rt

/-- `f"Logical operator '{op}' requires bool operands"`. -/
def logicOpMsg (op : BinOpKind) : String :=
  "Logical operator " ++ squote ++ op.str ++ squote ++ " requires bool operands"

/-- `f"If condition must be bool, got {cond_type}"`. -/
def ifCondMsg (t : String) : String :=
  "If condition must be bool, got " ++ t

/-- `f"While condition must be bool, got {cond_type}"`. -/
def whileCondMsg (t : String) : String :=
  "While condition must be bool, got " ++ t

/-- Arithmetic binary operators (`+ - * / %`) as grouped by the
analyzer. -/
def isArithB : BinOpKind → Bool
  | .add | .sub | .mul | .div | .mod => true
  | _ => false

/-- Ordering comparisons (`< > <= >=`). -/
def isCmpB : BinOpKind → Bool
  | .lt | .gt | .lte | .gte => true
  | _ => false

/-- Equality comparisons (`== !=`). -/
def isEqB : BinOpKind → Bool
  | .eq | .neq => true
  | _ => false

/-- `SemanticAnalyzer.analyze` on expressions: returns the state with
any new errors appended together with the expression's type. -/
def analyzeExpr : AState → Expr → AState × String
  | st, Expr.litInt _ => (st, "int")
  | st, Expr.litBool _ => (st, "bool")
  | st, Expr.varRef nm =>
      match lookupSym st.scopes nm with
      | none => ({ st with errors := st.errors ++ [undeclMsg nm] }, "int")
      | some sym => (st, sym.var_type)
  | st, Expr.binop op l r =>
      let (st1, ltype) := analyzeExpr st l
      let (st2, rtype) := analyzeExpr st1 r
      if isArithB op then
        (if ltype ≠ "int" ∨ rtype ≠ "int" then
           { st2 with errors := st2.errors ++ [arithOpMsg op] }
         else st2, "int")
      else if isCmpB op then
        (if ltype ≠ "int" ∨ rtype ≠ "int" then
           { st2 with errors := st2.errors ++ [cmpOpMsg op] }
         else st2, "bool")
      else if isEqB op then
        (if ltype ≠ rtype then
           { st2 with errors := st2.errors ++ [eqOpMsg ltype rtype] }
         else st2, "bool")
      else
        (if ltype ≠ "bool" ∨ rtype ≠ "bool" then
           { st2 with errors := st2.errors ++ [logicOpMsg op] }
         else st2, "bool")
  | st, Expr.unop UnOpKind.neg e =>
      let (st1, t) := analyzeExpr st e
      (if t ≠ "int" then
         { st1 with errors := st1.errors ++ ["Unary minus requires int operand"] }
       else st1, "int")
  | st, Expr.unop UnOpKind.lnot e =>
      let (st1, t) := analyzeExpr st e
      (if t ≠ "bool" then
         { st1 with errors := st1.errors ++ ["Logical NOT requires bool operand"] }
       else st1, "bool")

mutual
/-- `SemanticAnalyzer.analyze` on statements. -/
def analyzeStmt : AState → Stmt → AState
  | st, Stmt.varDecl tp nm value =>
      let (ok, st1) := declare st nm tp
      let st2 := if ok then st1 else { st1 with errors := st1.errors ++ [redeclMsg nm] }
      (match value with
       | some e =>
           let (st3, vt) := analyzeExpr st2 e
           if vt ≠ tp then
             { st3 with errors := st3.errors ++ [typeMismatchMsg vt tp nm] }
           else st3
       | none => st2)
  | st, Stmt.assign nm e =>
      match lookupSym st.scopes nm with
      | none => { st with errors := st.errors ++ [undeclMsg nm] }
      | some sym =>
          let (st1, vt) := analyzeExpr st e
          if vt ≠ sym.var_type then
            { st1 with errors := st1.errors ++ [typeMismatchMsg vt sym.var_type nm] }
          else st1
  | st, Stmt.ifStmt c tb eb =>
      let (st1, ct) := analyzeExpr st c
      let st2 := if ct ≠ "bool" then
          { st1 with errors := st1.errors ++ [ifCondMsg ct] }
        else st1
      let st3 := exitScope (analyzeStmts (enterScope st2) tb)
      (match eb with
       | some el => exitScope (analyzeStmts (enterScope st3) el)
       | none => st3)
  | st, Stmt.whileStmt c body =>
      let (st1, ct) := analyzeExpr st c
      let st2 := if ct ≠ "bool" then
          { st1 with errors := st1.errors ++ [whileCondMsg ct] }
        else st1
      exitScope (analyzeStmts (enterScope st2) body)
  | st, Stmt.printStmt e => (analyzeExpr st e).1
/-- `SemanticAnalyzer.analyze` on a statement sequence. -/
def analyzeStmts : AState → StmtList → AState
  | st, StmtList.nil => st
  | st, StmtList.cons s rest => analyzeStmts (analyzeStmt st s) rest
end

/-- Run the analyzer on a program from the initial state (one empty
global scope, no errors). -/
def analyzeProgram (p : StmtList) : AState :=
  analyzeStmts ⟨[[]], []⟩ p

/-! ### Bytecode (classes `BytecodeOp`, `BytecodeInstruction`,
`BytecodeGenerator`) -/

/-- Bytecode operations. -/
inductive BytecodeOp where
  | PUSH | LOAD | STORE
  | ADD | SUB | MUL | DIV | MOD | NEG
  | LT | GT | LTE | GTE | EQ | NEQ
  | AND | OR | NOT
  | JUMP | JUMP_IF_FALSE | LABEL
  | PRINT | HALT
  deriving DecidableEq, Repr

/-- A single bytecode instruction: an op together with an optional
argument (immediate, name, or — before resolution — a label string). -/
structure BytecodeInstruction where
  op : BytecodeOp
  arg : Option Atom
  deriving DecidableEq, Repr

/-- `BytecodeGenerator._load_operand`: immediates are pushed, everything
else is loaded by name. -/
def loadOperand (a : Option Atom) : BytecodeInstruction :=
  match a with
  | some (Atom.intv n) => ⟨BytecodeOp.PUSH, some (Atom.intv n)⟩
  | some (Atom.boolv b) => ⟨BytecodeOp.PUSH, some (Atom.boolv b)⟩
  | a => ⟨BytecodeOp.LOAD, a⟩

/-- A `STORE`/`JUMP` argument built from an optional result name. -/
def argOfResult (r : Option String) : Option Atom :=
  r.map Atom.strv

/-- Bytecode op for a binary / unary TAC op, as in the `op_map`
dictionaries of `_generate_instruction`. -/
def bcOpOfTac : TACOp → BytecodeOp
  | .ADD => .ADD | .SUB => .SUB | .MUL => .MUL | .DIV => .DIV | .MOD => .MOD
  | .LT => .LT | .GT => .GT | .LTE => .LTE | .GTE => .GTE
  | .EQ => .EQ | .NEQ => .NEQ
  | .AND => .AND | .OR => .OR
  | .NEG => .NEG | .NOT => .NOT
  | _ => .HALT

/-- The TAC ops lowered through the binary-operator scheme
`load arg1; load arg2; OP; STORE result`. -/
def isBinTac (op : TACOp) : Bool :=
  match op with
  | .ADD | .SUB | .MUL | .DIV | .MOD
  | .LT | .GT | .LTE | .GTE | .EQ | .NEQ
  | .AND | .OR => true
  | _ => false

/-- `BytecodeGenerator._generate_instruction`: the bytecode sequence for
one (non-label) TAC instruction.  `IF_TRUE` matches no branch in the
source and emits nothing. -/
def genInstrB (instr : TACInstruction) : List BytecodeInstruction :=
  if instr.op = TACOp.ASSIGN then
    [(if isIntInstance instr.arg1 then ⟨BytecodeOp.PUSH, instr.arg1⟩
      else ⟨BytecodeOp.LOAD, instr.arg1⟩),
     ⟨BytecodeOp.STORE, argOfResult instr.result⟩]
  else if instr.op = TACOp.COPY then
    [⟨BytecodeOp.LOAD, instr.arg1⟩, ⟨BytecodeOp.STORE, argOfResult instr.result⟩]
  else if isBinTac instr.op then
    [loadOperand instr.arg1, loadOperand instr.arg2,
     ⟨bcOpOfTac instr.op, none⟩, ⟨BytecodeOp.STORE, argOfResult instr.result⟩]
  else if instr.op = TACOp.NEG ∨ instr.op = TACOp.NOT then
    [loadOperand instr.arg1, ⟨bcOpOfTac instr.op, none⟩,
     ⟨BytecodeOp.STORE, argOfResult instr.result⟩]
  else if instr.op = TACOp.PRINT then
    [loadOperand instr.arg1, ⟨BytecodeOp.PRINT, none⟩]
  else if instr.op = TACOp.GOTO then
    [⟨BytecodeOp.JUMP, argOfResult instr.result⟩]
  else if instr.op = TACOp.IF_FALSE then
    [loadOperand instr.arg1, ⟨BytecodeOp.JUMP_IF_FALSE, argOfResult instr.result⟩]
  else []

/-- State of `BytecodeGenerator.generate`'s first pass: the bytecode so
far and the label-address dictionary. -/
structure BCState where
  bytecode : List BytecodeInstruction
  labels : List (String × Nat)
  deriving Repr

/-- First pass of `BytecodeGenerator.generate`: labels record their
current address, all other instructions expand.  (A `LABEL` with no
name — never produced by the generator — records nothing.) -/
def bcPass1 : BCState → List TACInstruction → BCState
  | st, [] => st
  | st, i :: rest =>
      if i.op = TACOp.LABEL then
        bcPass1 { st with labels :=
          (match i.result with
           | some s => (s, st.bytecode.length) :: st.labels
           | none => st.labels) } rest
      else
        bcPass1 { st with bytecode := st.bytecode ++ genInstrB i } rest

/-- `BytecodeGenerator._resolve_labels` on one instruction: a
`JUMP`/`JUMP_IF_FALSE` whose argument is a known label string gets the
recorded address. -/
def resolveLabel (labels : List (String × Nat)) (i : BytecodeInstruction) :
    BytecodeInstruction :=
  if i.op = BytecodeOp.JUMP ∨ i.op = BytecodeOp.JUMP_IF_FALSE then
    match i.arg with
    | some (Atom.strv s) =>
        match labels.lookup s with
        | some n => ⟨i.op, some (Atom.intv (Int.ofNat n))⟩
        | none => i
    | _ => i
  else i

/-- `BytecodeGenerator.generate`: first pass, a trailing `HALT`, then
label resolution. -/
def bytecodeGenerate (tac : List TACInstruction) : List BytecodeInstruction :=
  let st := bcPass1 (BCState.mk [] []) tac
  let withHalt : List BytecodeInstruction :=
    st.bytecode ++ [BytecodeInstruction.mk BytecodeOp.HALT none]
  withHalt.map (resolveLabel st.labels)

/-! ### Virtual machine (class `VirtualMachine`) -/

/-- VM state: operand stack, variable environment, program counter and
collected output lines. -/
structure VMState where
  stack : List Atom
  -- `variables` in the source; `variables` is a reserved word in Lean 4
  vars : List (String × Atom)
  pc : Nat
  output : List String
  deriving DecidableEq, Repr

/-- Python truthiness of a VM value: a non-zero integer, `True`, or a
non-empty string. -/
def truthy : Atom → Bool
  | .intv n => n ≠ 0
  | .boolv b => b
  | .strv s => s ≠ ""

/-- Python `str(value)`: decimal for integers, `True`/`False` for
booleans. -/
def pyStr : Atom → String
  | .intv n => toString n
  | .boolv b => if b then "True" else "False"
  | .strv s => s

/-- Python `a == b` between VM values: numeric comparison between
int-like values (so `True == 1`), string equality between strings,
`False` across types. -/
def pyEq (a b : Atom) : Bool :=
  match a, b with
  | .strv s, .strv t => s = t
  | .strv _, _ => false
  | _, .strv _ => false
  | a, b =>
      match a.toInt, b.toInt with
      | some x, some y => x = y
      | _, _ => false

/-- Result of one VM dispatch step. -/
inductive StepRes where
  | cont (s : VMState)
  | halted (s : VMState)
  | err
  deriving DecidableEq, Repr

/-- Binary arithmetic dispatch: pop `b`, pop `a`, push `f a b`.  Raises
(`err`) when the stack is short or an operand is a string, where the
Python interpreter would throw. -/
def binArith (f : Int → Int → Int) (st : VMState) : StepRes :=
  match st.stack with
  | b :: a :: rest =>
      match a.toInt, b.toInt with
      | some x, some y =>
          StepRes.cont { st with stack := Atom.intv (f x y) :: rest, pc := st.pc + 1 }
      | _, _ => StepRes.err
  | _ => StepRes.err

/-- Binary comparison dispatch: pop `b`, pop `a`, push `1` or `0`. -/
def binCmp (f : Int → Int → Bool) (st : VMState) : StepRes :=
  match st.stack with
  | b :: a :: rest =>
      match a.toInt, b.toInt with
      | some x, some y =>
          StepRes.cont
            { st with stack := Atom.intv (if f x y then 1 else 0) :: rest, pc := st.pc + 1 }
      | _, _ => StepRes.err
  | _ => StepRes.err

/-- Binary logical dispatch (`AND`/`OR` work on truthiness of any
values). -/
def binLogic (f : Bool → Bool → Bool) (st : VMState) : StepRes :=
  match st.stack with
  | b :: a :: rest =>
      StepRes.cont
        { st with stack := Atom.intv (if f (truthy a) (truthy b) then 1 else 0) :: rest,
                  pc := st.pc + 1 }
  | _ => StepRes.err

/-- One iteration of `VirtualMachine.execute`'s dispatch loop.  Python
exceptions (popping an empty stack, arithmetic on a string, jumping to
a non-integer target) become `err`; none of them is reachable from
bytecode the emitter produces for generated TAC. -/
def vmStep (bytecode : List BytecodeInstruction) (st : VMState) : StepRes :=
  match bytecode[st.pc]? with
  | none => StepRes.err
  | some instr =>
    match instr.op with
    | BytecodeOp.PUSH =>
        match instr.arg with
        | some a => StepRes.cont { st with stack := a :: st.stack, pc := st.pc + 1 }
        | none => StepRes.err
    | BytecodeOp.LOAD =>
        let v := match instr.arg with
          | some (Atom.strv s) =>
              match st.vars.lookup s with
              | some v => v
              | none => Atom.intv 0
          | _ => Atom.intv 0
        StepRes.cont { st with stack := v :: st.stack, pc := st.pc + 1 }
    | BytecodeOp.STORE =>
        match st.stack, instr.arg with
        | v :: rest, some (Atom.strv s) =>
            StepRes.cont
              { st with stack := rest, vars := (s, v) :: st.vars, pc := st.pc + 1 }
        | _, _ => StepRes.err
    | BytecodeOp.ADD => binArith (fun x y => x + y) st
    | BytecodeOp.SUB => binArith (fun x y => x - y) st
    | BytecodeOp.MUL => binArith (fun x y => x * y) st
    | BytecodeOp.DIV => binArith (fun x y => if y ≠ 0 then Int.fdiv x y else 0) st
    | BytecodeOp.MOD => binArith (fun x y => if y ≠ 0 then Int.fmod x y else 0) st
    | BytecodeOp.NEG =>
        match st.stack with
        | a :: rest =>
            match a.toInt with
            | some x =>
                StepRes.cont { st with stack := Atom.intv (-x) :: rest, pc := st.pc + 1 }
            | none => StepRes.err
        | [] => StepRes.err
    | BytecodeOp.LT => binCmp (fun x y => x < y) st
    | BytecodeOp.GT => binCmp (fun x y => x > y) st
    | BytecodeOp.LTE => binCmp (fun x y => x ≤ y) st
    | BytecodeOp.GTE => binCmp (fun x y => x ≥ y) st
    | BytecodeOp.EQ =>
        match st.stack with
        | b :: a :: rest =>
            StepRes.cont
              { st with stack := Atom.intv (if pyEq a b then 1 else 0) :: rest,
                        pc := st.pc + 1 }
        | _ => StepRes.err
    | BytecodeOp.NEQ =>
        match st.stack with
        | b :: a :: rest =>
            StepRes.cont
              { st with stack := Atom.intv (if pyEq a b then 0 else 1) :: rest,
                        pc := st.pc + 1 }
        | _ => StepRes.err
    | BytecodeOp.AND => binLogic (fun a b => a && b) st
    | BytecodeOp.OR => binLogic (fun a b => a || b) st
    | BytecodeOp.NOT =>
        match st.stack with
        | a :: rest =>
            StepRes.cont
              { st with stack := Atom.intv (if truthy a then 0 else 1) :: rest,
                        pc := st.pc + 1 }
        | [] => StepRes.err
    | BytecodeOp.PRINT =>
        match st.stack with
        | v :: rest =>
            StepRes.cont
              { st with stack := rest, output := st.output ++ [pyStr v], pc := st.pc + 1 }
        | [] => StepRes.err
    | BytecodeOp.JUMP =>
        match instr.arg with
        | some (Atom.intv n) =>
            if 0 ≤ n then StepRes.cont { st with pc := n.toNat } else StepRes.err
        | _ => StepRes.err
    | BytecodeOp.JUMP_IF_FALSE =>
        match st.stack with
        | c :: rest =>
            if truthy c then StepRes.cont { st with stack := rest, pc := st.pc + 1 }
            else
              match instr.arg with
              | some (Atom.intv n) =>
                  if 0 ≤ n then StepRes.cont { st with stack := rest, pc := n.toNat }
                  else StepRes.err
              | _ => StepRes.err
        | [] => StepRes.err
    | BytecodeOp.LABEL => StepRes.cont { st with pc := st.pc + 1 }
    | BytecodeOp.HALT => StepRes.halted st

/-- `VirtualMachine.execute`, fuel-indexed: the loop runs while
`pc < len(bytecode)` and stops on `HALT`; `none` means the fuel ran out
or the Python code raised. -/
def vmRun (fuel : Nat) (bytecode : List BytecodeInstruction) (st : VMState) :
    Option VMState :=
  match fuel with
  | 0 => none
  | f + 1 =>
      if st.pc < bytecode.length then
        match vmStep bytecode st with
        | StepRes.cont st' => vmRun f bytecode st'
        | StepRes.halted st' => some st'
        | StepRes.err => none
      else some st

/-- The VM's initial state. -/
def vmInit : VMState := ⟨[], [], 0, []⟩

/-- The full pipeline as run by `TinyLangFullCompiler.compile_and_run`
(TAC generation, optimization, bytecode emission, execution). -/
def runPipeline (fuel : Nat) (p : StmtList) : Option VMState :=
  vmRun fuel (bytecodeGenerate (optimize (tacGen p))) vmInit

/-- The pipeline with the optimizer skipped. -/
def runUnoptimized (fuel : Nat) (p : StmtList) : Option VMState :=
  vmRun fuel (bytecodeGenerate (tacGen p)) vmInit

/-! ### Specification-side predicates and concrete example programs -/

/-- Claim-side removal predicate for dead-code elimination: the
instruction is an `ASSIGN`, its result is a temporary (a name beginning
with `t`), and that result appears in no instruction's `arg1` or
`arg2`. -/
def specRemoved (l : List TACInstruction) (i : TACInstruction) : Bool :=
  decide (i.op = TACOp.ASSIGN) &&
    (match i.result with
     | some s =>
         startsWithT s &&
           !(l.any (fun j => j.arg1 = some (Atom.strv s) || j.arg2 = some (Atom.strv s)))
     | none => false)

/-- Labels defined by `LABEL` pseudo-instructions of a TAC list. -/
def labelDefs (l : List TACInstruction) : List String :=
  l.filterMap (fun i => if i.op = TACOp.LABEL then i.result else none)

/-- Every `GOTO` / `IF_FALSE` in `d` carries a label name drawn from
`L`. -/
def jumpsInto (d : List TACInstruction) (L : List String) : Prop :=
  ∀ i ∈ d, (i.op = TACOp.GOTO ∨ i.op = TACOp.IF_FALSE) →
    ∃ s, i.result = some s ∧ s ∈ L

/-- Every `GOTO` / `IF_FALSE` in the list carries a label name that some
`LABEL` of the same list defines. -/
def jumpsClosed (l : List TACInstruction) : Prop :=
  jumpsInto l (labelDefs l)

/-- A bytecode jump's argument is a label string drawn from `L`. -/
def jumpArgIn (L : List String) (j : BytecodeInstruction) : Prop :=
  (j.op = BytecodeOp.JUMP ∨ j.op = BytecodeOp.JUMP_IF_FALSE) →
    ∃ s, j.arg = some (Atom.strv s) ∧ s ∈ L

/-- `int tmp = 5; print(1);` — a well-typed program whose user variable
`tmp` begins with `t`. -/
def progTmp : StmtList :=
  StmtList.cons (Stmt.varDecl "int" "tmp" (some (Expr.litInt 5)))
    (StmtList.cons (Stmt.printStmt (Expr.litInt 1)) StmtList.nil)

/-- `print(true);` — a well-typed program printing a boolean literal. -/
def progTrue : StmtList :=
  StmtList.cons (Stmt.printStmt (Expr.litBool true)) StmtList.nil

/-- `int x = 10; if (x > 5) { print(1); } else { print(0); }` — spec
scenario 3, used to exercise jump emission. -/
def progIf : StmtList :=
  StmtList.cons (Stmt.varDecl "int" "x" (some (Expr.litInt 10)))
    (StmtList.cons
      (Stmt.ifStmt (Expr.binop BinOpKind.gt (Expr.varRef "x") (Expr.litInt 5))
        (StmtList.cons (Stmt.printStmt (Expr.litInt 1)) StmtList.nil)
        (some (StmtList.cons (Stmt.printStmt (Expr.litInt 0)) StmtList.nil)))
      StmtList.nil)

/-! ### Helper lemmas -/

/-- Prepending a binding preserves definedness of lookups. -/
theorem lookup_cons_isSome {α : Type} (m : List (String × α)) (s k : String) (v : α)
    (h : (m.lookup k).isSome = true) : (((s, v) :: m).lookup k).isSome = true := by
  simp only [List.lookup]
  cases hbeq : k == s <;> simp [hbeq, h]

/-- `cfRecord` preserves definedness of lookups. -/
theorem cfRecord_lookup_isSome (m : List (String × Atom)) (r : Option String) (v : Atom)
    (k : String) (h : (m.lookup k).isSome = true) :
    (((cfRecord m r v).lookup k).isSome) = true := by
  cases r with
  | none => exact h
  | some s => exact lookup_cons_isSome m s k v h

/-- The map produced by one folding step is either unchanged or an
insertion. -/
theorem cfOne_snd_shape (m : List (String × Atom)) (i : TACInstruction) :
    (cfOne m i).2 = m ∨ ∃ r v, (cfOne m i).2 = cfRecord m r v := by
  unfold cfOne
  split
  · split
    · exact Or.inr ⟨_, _, rfl⟩
    · exact Or.inl rfl
  · split
    · dsimp only
      split
      · split
        · exact Or.inr ⟨_, _, rfl⟩
        · exact Or.inl rfl
      · exact Or.inl rfl
    · exact Or.inl rfl

/-- One folding step preserves definedness of lookups in the constant
map. -/
theorem cfOne_lookup_mono (m : List (String × Atom)) (i : TACInstruction) (k : String)
    (h : (m.lookup k).isSome = true) : (((cfOne m i).2).lookup k).isSome = true := by
  rcases cfOne_snd_shape m i with heq | ⟨r, v, heq⟩
  · rw [heq]; exact h
  · rw [heq]; exact cfRecord_lookup_isSome m r v k h

/-- The whole folding loop preserves definedness of lookups. -/
theorem cfLoop_lookup_mono (l : List TACInstruction) (m : List (String × Atom)) (k : String)
    (h : (m.lookup k).isSome = true) : (((cfLoop m l).2).lookup k).isSome = true := by
  induction l generalizing m with
  | nil => exact h
  | cons i rest ih =>
      simp only [cfLoop]
      exact ih (cfOne m i).2 (cfOne_lookup_mono m i k h)

/-! ### Claim C4 — constant-folding map population -/

/-- C4 counterexample: the claim says only compiler temporaries are ever
recorded in the constant map, but folding the single instruction
`x = 7` (an assignment to the user variable `x`, which does not begin
with `t`) records `x` in the map. -/
theorem const_map_user_var_counterexample :
    (cfConstants [⟨TACOp.ASSIGN, some (Atom.intv 7), none, some "x"⟩]).lookup "x" =
      some (Atom.intv 7) ∧
    startsWithT "x" = false := by decide

/-- C4 (amended): the constant-folding pass records in its map the
result name of every `ASSIGN` of an integer immediate — with no check
that the name is a compiler temporary, so user-variable names are
recorded too. -/
theorem const_map_records_every_int_assign (l : List TACInstruction)
    (v : Int) (a2 : Option Atom) (nm : String)
    (h : (⟨TACOp.ASSIGN, some (Atom.intv v), a2, some nm⟩ : TACInstruction) ∈ l) :
    ((cfConstants l).lookup nm).isSome = true := by
  unfold cfConstants
  suffices hgen : ∀ m : List (String × Atom),
      (((cfLoop m l).2).lookup nm).isSome = true by exact hgen []
  intro m
  induction l generalizing m with
  | nil => cases h
  | cons i rest ih =>
      rcases List.mem_cons.mp h with heq | hmem
      · simp only [cfLoop]
        have hstep : (((cfOne m i).2).lookup nm).isSome = true := by
          subst heq
          simp [cfOne, cfRecord, isIntInstance, List.lookup]
        exact cfLoop_lookup_mono rest (cfOne m i).2 nm hstep
      · simp only [cfLoop]
        exact ih hmem (cfOne m i).2

/-- C4 witness: instantiating the amended claim on `x = 7`. -/
theorem const_map_records_every_int_assign_witness :
    ((⟨TACOp.ASSIGN, some (Atom.intv 7), none, some "x"⟩ : TACInstruction) ∈
      [(⟨TACOp.ASSIGN, some (Atom.intv 7), none, some "x"⟩ : TACInstruction)]) ∧
    ((cfConstants [⟨TACOp.ASSIGN, some (Atom.intv 7), none, some "x"⟩]).lookup "x").isSome
      = true :=
  ⟨by decide, const_map_records_every_int_assign _ 7 none "x" (by decide)⟩

/-! ### Claim C3 — integer arithmetic does not wrap at 32 bits -/

/-- C3 counterexample: executing `ADD` on `1` and `2147483647` pushes
`2147483648`, not the claimed `-2147483648` — the VM computes with
Python's arbitrary-precision integers and never wraps. -/
theorem add_int_max_counterexample :
    vmStep [⟨BytecodeOp.ADD, none⟩]
        ⟨[Atom.intv 2147483647, Atom.intv 1], [], 0, []⟩ =
      StepRes.cont ⟨[Atom.intv 2147483648], [], 1, []⟩ ∧
    (2147483648 : Int) ≠ -2147483648 := by decide

/-- C3 (amended): VM integer arithmetic is exact, arbitrary-precision
arithmetic: `ADD`, `SUB` and `MUL` push the mathematical result with no
32-bit wrap, so `1 + 2147483647` evaluates to `2147483648`. -/
theorem vm_arith_exact (code : List BytecodeInstruction) (st : VMState)
    (arg : Option Atom) (a b : Int) (rest : List Atom)
    (hs : st.stack = Atom.intv b :: Atom.intv a :: rest) :
    (code[st.pc]? = some ⟨BytecodeOp.ADD, arg⟩ →
       vmStep code st =
         StepRes.cont { st with stack := Atom.intv (a + b) :: rest, pc := st.pc + 1 }) ∧
    (code[st.pc]? = some ⟨BytecodeOp.SUB, arg⟩ →
       vmStep code st =
         StepRes.cont { st with stack := Atom.intv (a - b) :: rest, pc := st.pc + 1 }) ∧
    (code[st.pc]? = some ⟨BytecodeOp.MUL, arg⟩ →
       vmStep code st =
         StepRes.cont { st with stack := Atom.intv (a * b) :: rest, pc := st.pc + 1 }) := by
  refine ⟨fun h => ?_, fun h => ?_, fun h => ?_⟩ <;>
    simp [vmStep, h, hs, binArith, Atom.toInt]

/-- C3 witness: the amended claim at `1 + 2147483647`. -/
theorem vm_arith_exact_witness :
    (([⟨BytecodeOp.ADD, none⟩] : List BytecodeInstruction)[0]? =
      some ⟨BytecodeOp.ADD, none⟩) ∧
    vmStep [⟨BytecodeOp.ADD, none⟩]
        ⟨[Atom.intv 2147483647, Atom.intv 1], [], 0, []⟩ =
      StepRes.cont ⟨[Atom.intv 2147483648], [], 1, []⟩ :=
  ⟨rfl,
    ((vm_arith_exact [⟨BytecodeOp.ADD, none⟩]
          ⟨[Atom.intv 2147483647, Atom.intv 1], [], 0, []⟩
          none 1 2147483647 [] rfl).1 rfl).trans (by decide)⟩

/-! ### Claim C2 — what PRINT emits -/

/-- C2 counterexample: `print(true);` is well-typed (the analyzer reports
no errors), yet both the optimized and the unoptimized pipeline print
`True` — not `1`.  A boolean literal is pushed as a Python `bool`
(because `isinstance(True, int)` holds in the emitter) and `str(True)`
is `"True"`; only booleans produced by comparisons and logical
operators travel as the ints `1`/`0`. -/
theorem print_true_counterexample :
    (analyzeProgram progTrue).errors = [] ∧
    (runPipeline 100 progTrue).map VMState.output = some ["True"] ∧
    (runUnoptimized 100 progTrue).map VMState.output = some ["True"] ∧
    ("True" : String) ≠ "1" := by decide

/-- C2 (amended): each executed PRINT pops exactly one value and appends
its Python string representation as one output line: integers print as
their decimal representation, while boolean values print as
`True`/`False` (comparison and logical results are materialized as the
integers `1`/`0` and therefore print as `1`/`0`, but boolean literals
survive to PRINT as booleans). -/
theorem vm_print_pops_one (code : List BytecodeInstruction) (st : VMState)
    (arg : Option Atom) (v : Atom) (rest : List Atom)
    (hi : code[st.pc]? = some ⟨BytecodeOp.PRINT, arg⟩)
    (hs : st.stack = v :: rest) :
    vmStep code st =
      StepRes.cont
        { st with stack := rest, output := st.output ++ [pyStr v], pc := st.pc + 1 } ∧
    (∀ n : Int, pyStr (Atom.intv n) = toString n) ∧
    pyStr (Atom.boolv true) = "True" ∧ pyStr (Atom.boolv false) = "False" := by
  refine ⟨?_, fun n => rfl, rfl, rfl⟩
  simp [vmStep, hi, hs]

/-- C2 witness: the amended claim at a PRINT of the integer `7`. -/
theorem vm_print_pops_one_witness :
    (([⟨BytecodeOp.PRINT, none⟩] : List BytecodeInstruction)[0]? =
      some ⟨BytecodeOp.PRINT, none⟩) ∧
    vmStep [⟨BytecodeOp.PRINT, none⟩] ⟨[Atom.intv 7], [], 0, []⟩ =
      StepRes.cont ⟨[], [], 1, ["7"]⟩ :=
  ⟨rfl,
    ((vm_print_pops_one [⟨BytecodeOp.PRINT, none⟩] ⟨[Atom.intv 7], [], 0, []⟩
        none (Atom.intv 7) [] rfl rfl).1).trans (by decide)⟩

/-! ### Claim C1 — the optimizer and observable behavior -/

/-- C1: on the well-typed program `int tmp = 5; print(1);` the optimized
and unoptimized pipelines print the same output, but the user variable
`tmp` holds `5` at termination of the unoptimized run while the
optimized run never writes it: dead-code elimination treats the
user variable `tmp` as a compiler temporary (its name begins with `t`)
and deletes the store, changing the variable values at termination. -/
theorem optimizer_drops_user_variable_tmp :
    (analyzeProgram progTmp).errors = [] ∧
    (runUnoptimized 100 progTmp).map VMState.output = some ["1"] ∧
    (runPipeline 100 progTmp).map VMState.output = some ["1"] ∧
    (runUnoptimized 100 progTmp).map (fun s => s.vars.lookup "tmp") =
      some (some (Atom.intv 5)) ∧
    (runPipeline 100 progTmp).map (fun s => s.vars.lookup "tmp") = some none := by
  decide

/-! ### Claim C6 — DIV/MOD semantics -/

/-- Floored remainder by a negative divisor lies in `(b, 0]`. -/
theorem fmod_neg_bounds (a b : Int) (hb : b < 0) :
    b < Int.fmod a b ∧ Int.fmod a b ≤ 0 := by
  match a, b with
  | _, Int.ofNat n =>
      exact absurd hb (Int.not_lt.mpr (Int.ofNat_nonneg n))
  | Int.ofNat 0, Int.negSucc n =>
      refine ⟨?_, ?_⟩ <;> simp [Int.fmod]
      exact hb
  | Int.ofNat (m + 1), Int.negSucc n =>
      have h1 : Int.fmod (Int.ofNat (m + 1)) (Int.negSucc n) =
          Int.subNatNat (m % (n + 1)) n := rfl
      have h2 : m % (n + 1) < n + 1 := Nat.mod_lt m (Nat.succ_pos n)
      rw [h1, Int.subNatNat_eq_coe]
      constructor
      · rw [Int.negSucc_eq]; omega
      · omega
  | Int.negSucc m, Int.negSucc n =>
      have h1 : Int.fmod (Int.negSucc m) (Int.negSucc n) =
          -Int.ofNat ((m + 1) % (n + 1)) := rfl
      have h2 : (m + 1) % (n + 1) < n + 1 := Nat.mod_lt (m + 1) (Nat.succ_pos n)
      rw [h1]
      simp only [Int.ofNat_eq_coe, Int.negSucc_eq]
      constructor <;> omega

/-- C6: with integers `a` (second from top) and `b` (top) on the stack,
`DIV` pushes `0` when `b = 0` and the floored quotient otherwise, `MOD`
pushes `0` when `b = 0` and the floored remainder otherwise, the
remainder has the sign of the divisor, and neither operation raises
(both steps yield `cont`, never `err`). -/
theorem div_mod_semantics (code : List BytecodeInstruction) (st : VMState)
    (arg : Option Atom) (a b : Int) (rest : List Atom)
    (hs : st.stack = Atom.intv b :: Atom.intv a :: rest) :
    (code[st.pc]? = some ⟨BytecodeOp.DIV, arg⟩ →
       vmStep code st =
         StepRes.cont
           { st with stack := Atom.intv (if b = 0 then 0 else Int.fdiv a b) :: rest,
                     pc := st.pc + 1 }) ∧
    (code[st.pc]? = some ⟨BytecodeOp.MOD, arg⟩ →
       vmStep code st =
         StepRes.cont
           { st with stack := Atom.intv (if b = 0 then 0 else Int.fmod a b) :: rest,
                     pc := st.pc + 1 }) ∧
    (0 < b → 0 ≤ Int.fmod a b ∧ Int.fmod a b < b) ∧
    (b < 0 → b < Int.fmod a b ∧ Int.fmod a b ≤ 0) := by
  refine ⟨fun h => ?_, fun h => ?_, fun hb => ?_, fun hb => fmod_neg_bounds a b hb⟩
  · by_cases hb : b = 0 <;> simp [vmStep, h, hs, binArith, Atom.toInt, hb]
  · by_cases hb : b = 0 <;> simp [vmStep, h, hs, binArith, Atom.toInt, hb]
  · exact ⟨Int.fmod_nonneg' a hb, Int.fmod_lt_of_pos a hb⟩

/-- C6 witness: dividing `7` by `0` pushes `0`, and `-7 mod 3` has the
sign of the divisor `3`. -/
theorem div_mod_semantics_witness :
    (([⟨BytecodeOp.DIV, none⟩] : List BytecodeInstruction)[0]? =
      some ⟨BytecodeOp.DIV, none⟩) ∧
    vmStep [⟨BytecodeOp.DIV, none⟩] ⟨[Atom.intv 0, Atom.intv 7], [], 0, []⟩ =
      StepRes.cont ⟨[Atom.intv 0], [], 1, []⟩ ∧
    (0 ≤ Int.fmod (-7) 3 ∧ Int.fmod (-7) 3 < 3) :=
  ⟨rfl,
    ((div_mod_semantics [⟨BytecodeOp.DIV, none⟩] ⟨[Atom.intv 0, Atom.intv 7], [], 0, []⟩
        none 7 0 [] rfl).1 rfl).trans (by decide),
    (div_mod_semantics [⟨BytecodeOp.MOD, none⟩]
        ⟨[Atom.intv 3, Atom.intv (-7)], [], 0, []⟩ none (-7) 3 [] rfl).2.2.1
      (by decide)⟩

/-! ### Claim C10 — undeclared variable references -/

/-- C10: a variable reference whose name resolves to no symbol in any
enclosing scope records exactly the one undeclared-variable error for
this occurrence and is assigned type `int`, so checking of the
enclosing expression continues. -/
theorem undeclared_variable_defaults_to_int (st : AState) (name : String)
    (h : lookupSym st.scopes name = none) :
    analyzeExpr st (Expr.varRef name) =
      ({ st with errors := st.errors ++ [undeclMsg name] }, "int") := by
  simp [analyzeExpr, h]

/-- C10 witness: looking up `y` in the empty global scope. -/
theorem undeclared_variable_defaults_to_int_witness :
    lookupSym (AState.mk [[]] []).scopes "y" = none ∧
    analyzeExpr (AState.mk [[]] []) (Expr.varRef "y") =
      (AState.mk [[]] [undeclMsg "y"], "int") :=
  ⟨rfl, (undeclared_variable_defaults_to_int (AState.mk [[]] []) "y" rfl).trans rfl⟩

/-! ### Claim C9 — redeclaration in the same scope -/

/-- Expression analysis never changes the scope stack. -/
theorem analyzeExpr_scopes (e : Expr) : ∀ st : AState,
    (analyzeExpr st e).1.scopes = st.scopes := by
  induction e with
  | binop op l r ihl ihr =>
      intro st
      simp only [analyzeExpr]
      rcases hl : analyzeExpr st l with ⟨st1, t1⟩
      rcases hr : analyzeExpr st1 r with ⟨st2, t2⟩
      have h1 : st1.scopes = st.scopes := by
        have := ihl st; rw [hl] at this; exact this
      have h2 : st2.scopes = st.scopes := by
        have := ihr st1; rw [hr] at this; rw [this, h1]
      split_ifs <;> simp [h2]
  | unop op e ih =>
      intro st
      cases op <;>
        · simp only [analyzeExpr]
          rcases he : analyzeExpr st e with ⟨st1, t⟩
          have h1 : st1.scopes = st.scopes := by
            have := ih st; rw [he] at this; exact this
          split_ifs <;> simp [h1]
  | litInt n => intro st; rfl
  | litBool b => intro st; rfl
  | varRef nm =>
      intro st
      simp only [analyzeExpr]
      split <;> rfl

/-- If `cur = base ++ mid` then appending anything keeps `base` a
prefix. -/
theorem errors_append_extra {base mid cur : List String} (h : cur = base ++ mid)
    (extra : List String) : ∃ es, cur ++ extra = base ++ es :=
  ⟨mid ++ extra, by rw [h, List.append_assoc]⟩

/-- Reflexive form of `errors_append_extra`. -/
theorem errors_append_refl {base mid cur : List String} (h : cur = base ++ mid) :
    ∃ es, cur = base ++ es :=
  ⟨mid, h⟩

/-- Expression analysis only appends to the error list. -/
theorem analyzeExpr_errors_append (e : Expr) : ∀ st : AState,
    ∃ es, (analyzeExpr st e).1.errors = st.errors ++ es := by
  induction e with
  | binop op l r ihl ihr =>
      intro st
      simp only [analyzeExpr]
      rcases hl : analyzeExpr st l with ⟨st1, t1⟩
      rcases hr : analyzeExpr st1 r with ⟨st2, t2⟩
      obtain ⟨es1, h1⟩ : ∃ es, st1.errors = st.errors ++ es := by
        have := ihl st; rw [hl] at this; exact this
      obtain ⟨es2, h2⟩ : ∃ es, st2.errors = st1.errors ++ es := by
        have := ihr st1; rw [hr] at this; exact this
      have h3 : st2.errors = st.errors ++ (es1 ++ es2) := by
        rw [h2, h1, List.append_assoc]
      split_ifs <;>
        first
          | exact errors_append_extra h3 _
          | exact errors_append_refl h3
  | unop op e ih =>
      intro st
      cases op <;>
        · simp only [analyzeExpr]
          rcases he : analyzeExpr st e with ⟨st1, t⟩
          obtain ⟨es1, h1⟩ : ∃ es, st1.errors = st.errors ++ es := by
            have := ih st; rw [he] at this; exact this
          split_ifs <;>
            first
              | exact errors_append_extra h1 _
              | exact errors_append_refl h1
  | litInt n => intro st; exact ⟨[], by simp [analyzeExpr]⟩
  | litBool b => intro st; exact ⟨[], by simp [analyzeExpr]⟩
  | varRef nm =>
      intro st
      simp only [analyzeExpr]
      split
      · exact ⟨[undeclMsg nm], rfl⟩
      · exact ⟨[], by simp⟩

/-- C9: declaring a name that is already bound in the current scope
records a redeclaration error (followed only by errors of the
initializer, if any), leaves the whole scope stack unchanged, and
subsequent lookups still find the first binding. -/
theorem redeclaration_keeps_first_binding (st : AState)
    (cur : List (String × SymbolEntry)) (rest : List (List (String × SymbolEntry)))
    (name tp : String) (sym : SymbolEntry) (value : Option Expr)
    (hsc : st.scopes = cur :: rest) (hb : cur.lookup name = some sym) :
    ∃ es, (analyzeStmt st (Stmt.varDecl tp name value)).errors =
            st.errors ++ redeclMsg name :: es ∧
          (analyzeStmt st (Stmt.varDecl tp name value)).scopes = st.scopes ∧
          lookupSym (analyzeStmt st (Stmt.varDecl tp name value)).scopes name = some sym := by
  have hdecl : declare st name tp = (false, st) := by
    simp [declare, hsc, hb]
  have hlook : lookupSym st.scopes name = some sym := by
    rw [hsc]; simp [lookupSym, hb]
  cases value with
  | none =>
      refine ⟨[], ?_, ?_, ?_⟩ <;> simp [analyzeStmt, hdecl, hlook]
  | some e =>
      simp [analyzeStmt, hdecl]
      rcases hE : analyzeExpr { st with errors := st.errors ++ [redeclMsg name] } e
        with ⟨st3, vt⟩
      have hsc3 : st3.scopes = st.scopes := by
        have := analyzeExpr_scopes e { st with errors := st.errors ++ [redeclMsg name] }
        rw [hE] at this
        exact this
      obtain ⟨es2, herr3⟩ :
          ∃ es, st3.errors = ({ st with errors := st.errors ++ [redeclMsg name] } :
              AState).errors ++ es := by
        have := analyzeExpr_errors_append e
          { st with errors := st.errors ++ [redeclMsg name] }
        rw [hE] at this
        exact this
      simp only at herr3
      split_ifs with hvt
      · exact ⟨⟨es2, by simp [herr3, List.append_assoc]⟩,
          by simp [hsc3], by simp [hsc3, hlook]⟩
      · exact ⟨⟨es2 ++ [typeMismatchMsg vt tp name],
            by simp [herr3, List.append_assoc]⟩,
          by simp [hsc3], by simp [hsc3, hlook]⟩

/-- C9 witness: redeclaring `x` (first declared as `int`) as `bool` in
the same scope. -/
theorem redeclaration_keeps_first_binding_witness :
    (AState.mk [[("x", SymbolEntry.mk "x" "int" 0 true)]] []).scopes =
      [("x", SymbolEntry.mk "x" "int" 0 true)] :: [] ∧
    (List.lookup "x" [("x", SymbolEntry.mk "x" "int" 0 true)] =
      some (SymbolEntry.mk "x" "int" 0 true)) ∧
    ∃ es,
      (analyzeStmt (AState.mk [[("x", SymbolEntry.mk "x" "int" 0 true)]] [])
          (Stmt.varDecl "bool" "x" none)).errors = [] ++ redeclMsg "x" :: es ∧
      (analyzeStmt (AState.mk [[("x", SymbolEntry.mk "x" "int" 0 true)]] [])
          (Stmt.varDecl "bool" "x" none)).scopes =
        (AState.mk [[("x", SymbolEntry.mk "x" "int" 0 true)]] []).scopes ∧
      lookupSym (analyzeStmt (AState.mk [[("x", SymbolEntry.mk "x" "int" 0 true)]] [])
          (Stmt.varDecl "bool" "x" none)).scopes "x" =
        some (SymbolEntry.mk "x" "int" 0 true) :=
  ⟨rfl, rfl,
    redeclaration_keeps_first_binding _ _ [] "x" "bool" _ none rfl rfl⟩

/-! ### Claim C5 — what dead-code elimination removes -/

/-- A name beginning with `t` is non-empty. -/
theorem startsWithT_ne_empty (s : String) (h : startsWithT s = true) : s ≠ "" := by
  intro he
  subst he
  simp [startsWithT] at h

/-- The source's truthiness-guarded check agrees with plain
`startswith('t')` on present results. -/
theorem isTempResult_some (s : String) : isTempResult (some s) = startsWithT s := by
  cases hsw : startsWithT s with
  | true => simp [isTempResult, hsw, startsWithT_ne_empty s hsw]
  | false => simp [isTempResult, hsw]

/-- Membership of a non-empty name in one instruction's contribution to
`used_vars`. -/
theorem mem_usedOf (i : TACInstruction) (s : String) (hs : s ≠ "") :
    s ∈ usedOf i ↔ (i.arg1 = some (Atom.strv s) ∨ i.arg2 = some (Atom.strv s)) := by
  rcases i with ⟨op, a1, a2, r⟩
  dsimp only [usedOf]
  rcases a1 with _ | (n1 | b1 | t1) <;> rcases a2 with _ | (n2 | b2 | t2) <;>
    simp [List.mem_append, hs] <;>
    (try by_cases h1 : t1 = "") <;> (try by_cases h2 : t2 = "") <;>
    simp_all [eq_comm]

/-- A non-empty name is in `used_vars` exactly when it appears as some
instruction's `arg1` or `arg2`. -/
theorem mem_collectUsed_iff (l : List TACInstruction) (s : String) (hs : s ≠ "") :
    (s ∈ collectUsed l) ↔
      l.any (fun j => j.arg1 = some (Atom.strv s) || j.arg2 = some (Atom.strv s)) = true := by
  induction l with
  | nil => simp [collectUsed]
  | cons i rest ih =>
      simp [collectUsed, List.mem_append, mem_usedOf i s hs, ih]

/-- C5: dead-code elimination is exactly the filter that drops `ASSIGN`
instructions whose result is a temporary (name beginning with `t`)
appearing in no instruction's `arg1` or `arg2`; every other
instruction — user-variable writes, control flow, prints — is
retained. -/
theorem dce_removes_exactly_dead_temp_assigns (l : List TACInstruction) :
    dead_code_elimination l = l.filter (fun i => !specRemoved l i) := by
  unfold dead_code_elimination
  suffices h : ∀ m : List TACInstruction,
      dceLoop (collectUsed l) m = m.filter (fun i => !specRemoved l i) from h l
  intro m
  induction m with
  | nil => rfl
  | cons i rest ih =>
      by_cases hc : i.op = TACOp.ASSIGN ∧ isTempResult i.result = true
      · obtain ⟨hop, htmp⟩ := hc
        rcases hr : i.result with _ | s
        · rw [hr] at htmp; simp [isTempResult] at htmp
        · have hsw : startsWithT s = true := by
            rw [hr, isTempResult_some] at htmp; exact htmp
          have hs : s ≠ "" := startsWithT_ne_empty s hsw
          have htmp' : isTempResult (some s) = true := by
            rw [isTempResult_some]; exact hsw
          by_cases hu : s ∈ collectUsed l
          · have hrem : specRemoved l i = false := by
              have hany := (mem_collectUsed_iff l s hs).mp hu
              simp [specRemoved, hr, hop, hsw, hany]
            simp only [dceLoop, hr, List.filter, hrem, hop, htmp', and_self, if_true,
              Bool.not_false]
            simp [ih, hu, htmp']
          · have hrem : specRemoved l i = true := by
              have hany : l.any
                  (fun j => j.arg1 = some (Atom.strv s) || j.arg2 = some (Atom.strv s))
                  = false := by
                rcases ha : l.any
                    (fun j => j.arg1 = some (Atom.strv s) || j.arg2 = some (Atom.strv s))
                  with _ | _
                · rfl
                · exact absurd ((mem_collectUsed_iff l s hs).mpr ha) hu
              simp [specRemoved, hr, hop, hsw, hany]
            simp only [dceLoop, hr, List.filter, hrem, hop, htmp', and_self, if_true,
              Bool.not_true]
            simp [ih, hu, htmp']
      · have hrem : specRemoved l i = false := by
          rcases hr : i.result with _ | s
          · simp [specRemoved, hr]
          · by_cases hop : i.op = TACOp.ASSIGN
            · have htmp : isTempResult i.result = false := by
                rcases ht : isTempResult i.result with _ | _
                · rfl
                · exact absurd ⟨hop, ht⟩ hc
              rw [hr, isTempResult_some] at htmp
              simp [specRemoved, hr, htmp]
            · simp [specRemoved, hop]
        simp only [dceLoop, List.filter, hrem, Bool.not_false, if_neg hc]
        simp [ih]

/-! ### Claim C8 — optimizer idempotence -/

/-- C8 counterexample: on the chain `t0 = 3; t5 = t0` one application of
the optimizer keeps `t0 = 3` (it is still used by the second
instruction), but a second application finds `t0` dead and removes it,
so running the optimizer twice differs from running it once. -/
theorem optimize_twice_counterexample :
    optimize (optimize
        [⟨TACOp.ASSIGN, some (Atom.intv 3), none, some "t0"⟩,
         ⟨TACOp.ASSIGN, some (Atom.strv "t0"), none, some "t5"⟩]) ≠
      optimize
        [⟨TACOp.ASSIGN, some (Atom.intv 3), none, some "t0"⟩,
         ⟨TACOp.ASSIGN, some (Atom.strv "t0"), none, some "t5"⟩] := by decide

/-- Constant folding emits exactly one instruction per input
instruction. -/
theorem cfLoop_length (l : List TACInstruction) :
    ∀ m : List (String × Atom), (cfLoop m l).1.length = l.length := by
  induction l with
  | nil => intro m; rfl
  | cons i rest ih =>
      intro m
      simp only [cfLoop, List.length_cons]
      rw [ih]

/-- Dead-code elimination never lengthens the list. -/
theorem dceLoop_length_le (u : List String) (l : List TACInstruction) :
    (dceLoop u l).length ≤ l.length := by
  induction l with
  | nil => exact Nat.le_refl 0
  | cons i rest ih =>
      simp only [dceLoop]
      split
      · split
        · simpa using Nat.succ_le_succ ih
        · exact Nat.le_trans ih (Nat.le_succ rest.length)
      · simpa using Nat.succ_le_succ ih

/-- One optimizer application never lengthens the instruction list. -/
theorem optimize_length_le (l : List TACInstruction) :
    (optimize l).length ≤ l.length := by
  unfold optimize algebraic_simplification dead_code_elimination constant_folding
  rw [List.length_map]
  exact Nat.le_trans (dceLoop_length_le _ _) (Nat.le_of_eq (cfLoop_length l []))

/-- C8 (amended): a second application of the optimizer yields an IR no
longer than the first application's output (each pass is
length-non-increasing); exact idempotence fails, because dead-code
elimination can uncover assignment chains that become dead only after a
first pass. -/
theorem optimize_twice_length_le (l : List TACInstruction) :
    (optimize (optimize l)).length ≤ (optimize l).length :=
  optimize_length_le (optimize l)

/-! ### Claim C7 — resolved jump targets -/

/-- A successful association-list lookup comes from a member pair. -/
theorem mem_of_lookup_eq_some {α β : Type} [DecidableEq α] {l : List (α × β)} {k : α}
    {v : β} (h : l.lookup k = some v) : (k, v) ∈ l := by
  induction l with
  | nil => simp at h
  | cons p rest ih =>
      rcases p with ⟨a, b⟩
      rw [List.lookup_cons] at h
      cases hbeq : k == a with
      | true =>
          rw [hbeq] at h
          simp only [Option.some.injEq] at h
          subst h
          have : k = a := by simpa using hbeq
          subst this
          exact List.mem_cons_self _ _
      | false =>
          rw [hbeq] at h
          exact List.mem_cons_of_mem _ (ih h)

/-- `labelDefs` distributes over append. -/
theorem labelDefs_append (a b : List TACInstruction) :
    labelDefs (a ++ b) = labelDefs a ++ labelDefs b :=
  List.filterMap_append a b _

/-- A present `LABEL` contributes its name to `labelDefs`. -/
theorem mem_labelDefs_of_label (d : List TACInstruction) (a1 a2 : Option Atom)
    (s : String) (h : (⟨TACOp.LABEL, a1, a2, some s⟩ : TACInstruction) ∈ d) :
    s ∈ labelDefs d := by
  simp only [labelDefs, List.mem_filterMap]
  exact ⟨⟨TACOp.LABEL, a1, a2, some s⟩, h, by simp⟩

/-- `jumpsInto` is monotone in the label set. -/
theorem jumpsInto_mono {d : List TACInstruction} {L L' : List String}
    (h : jumpsInto d L) (hsub : ∀ s ∈ L, s ∈ L') : jumpsInto d L' := by
  intro i hi hop
  obtain ⟨s, h1, h2⟩ := h i hi hop
  exact ⟨s, h1, hsub s h2⟩

/-- `jumpsInto` splits over append. -/
theorem jumpsInto_append {d1 d2 : List TACInstruction} {L : List String}
    (h1 : jumpsInto d1 L) (h2 : jumpsInto d2 L) : jumpsInto (d1 ++ d2) L := by
  intro i hi hop
  rcases List.mem_append.mp hi with h | h
  · exact h1 i h hop
  · exact h2 i h hop

/-- A list with no jumps jumps into any label set. -/
theorem jumpsInto_of_no_jumps {d : List TACInstruction} {L : List String}
    (h : ∀ i ∈ d, i.op ≠ TACOp.GOTO ∧ i.op ≠ TACOp.IF_FALSE) : jumpsInto d L := by
  intro i hi hop
  rcases hop with hop | hop
  · exact absurd hop (h i hi).1
  · exact absurd hop (h i hi).2

/-- Expression generation appends only straight-line instructions: no
jumps and no labels. -/
theorem genExpr_decomp (e : Expr) : ∀ st : GenState, ∃ d,
    (genExpr st e).1.instrs = st.instrs ++ d ∧
    ∀ i ∈ d, i.op ≠ TACOp.GOTO ∧ i.op ≠ TACOp.IF_FALSE ∧ i.op ≠ TACOp.LABEL := by
  induction e with
  | binop op l r ihl ihr =>
      intro st
      obtain ⟨d1, h1, hop1⟩ := ihl st
      obtain ⟨d2, h2, hop2⟩ := ihr (genExpr st l).1
      refine ⟨d1 ++ d2 ++
        [⟨tacOpOfBin op, some (Atom.strv (genExpr st l).2),
          some (Atom.strv (genExpr (genExpr st l).1 r).2),
          some ("t" ++ Nat.repr (genExpr (genExpr st l).1 r).1.temp_counter)⟩], ?_, ?_⟩
      · simp only [genExpr]
        rw [h2, h1]
        simp [List.append_assoc]
      · intro i hi
        rcases List.mem_append.mp hi with hi | hi
        · rcases List.mem_append.mp hi with hi | hi
          · exact ⟨(hop1 i hi).1, (hop1 i hi).2.1, (hop1 i hi).2.2⟩
          · exact ⟨(hop2 i hi).1, (hop2 i hi).2.1, (hop2 i hi).2.2⟩
        · rcases List.mem_singleton.mp hi with rfl
          cases op <;> simp [tacOpOfBin]
  | unop op e ih =>
      intro st
      obtain ⟨d1, h1, hop1⟩ := ih st
      refine ⟨d1 ++
        [⟨tacOpOfUn op, some (Atom.strv (genExpr st e).2), none,
          some ("t" ++ Nat.repr (genExpr st e).1.temp_counter)⟩], ?_, ?_⟩
      · simp only [genExpr]
        rw [h1]
        simp [List.append_assoc]
      · intro i hi
        rcases List.mem_append.mp hi with hi | hi
        · exact hop1 i hi
        · rcases List.mem_singleton.mp hi with rfl
          cases op <;> simp [tacOpOfUn]
  | litInt n =>
      intro st
      exact ⟨[⟨TACOp.ASSIGN, some (Atom.intv n), none,
        some ("t" ++ Nat.repr st.temp_counter)⟩], rfl, by intro i hi; simp at hi; subst hi; simp⟩
  | litBool b =>
      intro st
      exact ⟨[⟨TACOp.ASSIGN, some (Atom.boolv b), none,
        some ("t" ++ Nat.repr st.temp_counter)⟩], rfl, by intro i hi; simp at hi; subst hi; simp⟩
  | varRef nm =>
      intro st
      exact ⟨[], by simp [genExpr], by intro i hi; simp at hi⟩

mutual
/-- Statement generation appends a block whose jumps all target labels
defined inside that same block. -/
theorem genStmt_decomp (s : Stmt) : ∀ st : GenState, ∃ d,
    (genStmt st s).instrs = st.instrs ++ d ∧ jumpsClosed d := by
  cases s with
  | varDecl tp nm value =>
      cases value with
      | none =>
          intro st
          exact ⟨[], by simp [genStmt], jumpsInto_of_no_jumps (by intro i hi; cases hi)⟩
      | some e =>
          intro st
          obtain ⟨dc, hc, hcop⟩ := genExpr_decomp e st
          refine ⟨dc ++ [⟨TACOp.ASSIGN, some (Atom.strv (genExpr st e).2), none, some nm⟩],
            ?_, ?_⟩
          · simp only [genStmt]
            rw [hc, List.append_assoc]
          · refine jumpsInto_of_no_jumps ?_
            intro i hi
            rcases List.mem_append.mp hi with hi | hi
            · exact ⟨(hcop i hi).1, (hcop i hi).2.1⟩
            · rcases List.mem_singleton.mp hi with rfl
              exact ⟨by simp, by simp⟩
  | assign nm e =>
      intro st
      obtain ⟨dc, hc, hcop⟩ := genExpr_decomp e st
      refine ⟨dc ++ [⟨TACOp.ASSIGN, some (Atom.strv (genExpr st e).2), none, some nm⟩],
        ?_, ?_⟩
      · simp only [genStmt]
        rw [hc, List.append_assoc]
      · refine jumpsInto_of_no_jumps ?_
        intro i hi
        rcases List.mem_append.mp hi with hi | hi
        · exact ⟨(hcop i hi).1, (hcop i hi).2.1⟩
        · rcases List.mem_singleton.mp hi with rfl
          exact ⟨by simp, by simp⟩
  | printStmt e =>
      intro st
      obtain ⟨dc, hc, hcop⟩ := genExpr_decomp e st
      refine ⟨dc ++ [⟨TACOp.PRINT, some (Atom.strv (genExpr st e).2), none, none⟩], ?_, ?_⟩
      · simp only [genStmt]
        rw [hc, List.append_assoc]
      · refine jumpsInto_of_no_jumps ?_
        intro i hi
        rcases List.mem_append.mp hi with hi | hi
        · exact ⟨(hcop i hi).1, (hcop i hi).2.1⟩
        · rcases List.mem_singleton.mp hi with rfl
          exact ⟨by simp, by simp⟩
  | whileStmt c body =>
      intro st
      obtain ⟨dc, hc, hcop⟩ := genExpr_decomp c
        { st with
            label_counter := st.label_counter + 2,
            instrs := st.instrs ++
              [⟨TACOp.LABEL, none, none, some ("L" ++ Nat.repr st.label_counter)⟩] }
      obtain ⟨db, hb, hbcl⟩ := genStmts_decomp body
        { (genExpr { st with
            label_counter := st.label_counter + 2,
            instrs := st.instrs ++
              [⟨TACOp.LABEL, none, none, some ("L" ++ Nat.repr st.label_counter)⟩] } c).1
          with
            instrs := (genExpr { st with
              label_counter := st.label_counter + 2,
              instrs := st.instrs ++
                [⟨TACOp.LABEL, none, none, some ("L" ++ Nat.repr st.label_counter)⟩] } c).1.instrs
              ++ [⟨TACOp.IF_FALSE,
                   some (Atom.strv (genExpr { st with
                     label_counter := st.label_counter + 2,
                     instrs := st.instrs ++
                       [⟨TACOp.LABEL, none, none,
                         some ("L" ++ Nat.repr st.label_counter)⟩] } c).2),
                   none, some ("L" ++ Nat.repr (st.label_counter + 1))⟩] }
      refine ⟨[⟨TACOp.LABEL, none, none, some ("L" ++ Nat.repr st.label_counter)⟩] ++ dc ++
          [⟨TACOp.IF_FALSE,
             some (Atom.strv (genExpr { st with
               label_counter := st.label_counter + 2,
               instrs := st.instrs ++
                 [⟨TACOp.LABEL, none, none, some ("L" ++ Nat.repr st.label_counter)⟩] } c).2),
             none, some ("L" ++ Nat.repr (st.label_counter + 1))⟩] ++ db ++
          [⟨TACOp.GOTO, none, none, some ("L" ++ Nat.repr st.label_counter)⟩,
           ⟨TACOp.LABEL, none, none, some ("L" ++ Nat.repr (st.label_counter + 1))⟩],
        ?_, ?_⟩
      · simp only [genStmt]
        rw [hb]
        simp only [List.append_assoc]
        rw [hc]
        simp [List.append_assoc]
      · intro i hi hop
        have hstart : ("L" ++ Nat.repr st.label_counter) ∈ labelDefs
            ([⟨TACOp.LABEL, none, none, some ("L" ++ Nat.repr st.label_counter)⟩] ++ dc ++
              [⟨TACOp.IF_FALSE,
                 some (Atom.strv (genExpr { st with
                   label_counter := st.label_counter + 2,
                   instrs := st.instrs ++
                     [⟨TACOp.LABEL, none, none,
                       some ("L" ++ Nat.repr st.label_counter)⟩] } c).2),
                 none, some ("L" ++ Nat.repr (st.label_counter + 1))⟩] ++ db ++
              [⟨TACOp.GOTO, none, none, some ("L" ++ Nat.repr st.label_counter)⟩,
               ⟨TACOp.LABEL, none, none, some ("L" ++ Nat.repr (st.label_counter + 1))⟩]) := by
          apply mem_labelDefs_of_label _ none none
          simp [List.mem_append]
        have hend : ("L" ++ Nat.repr (st.label_counter + 1)) ∈ labelDefs
            ([⟨TACOp.LABEL, none, none, some ("L" ++ Nat.repr st.label_counter)⟩] ++ dc ++
              [⟨TACOp.IF_FALSE,
                 some (Atom.strv (genExpr { st with
                   label_counter := st.label_counter + 2,
                   instrs := st.instrs ++
                     [⟨TACOp.LABEL, none, none,
                       some ("L" ++ Nat.repr st.label_counter)⟩] } c).2),
                 none, some ("L" ++ Nat.repr (st.label_counter + 1))⟩] ++ db ++
              [⟨TACOp.GOTO, none, none, some ("L" ++ Nat.repr st.label_counter)⟩,
               ⟨TACOp.LABEL, none, none, some ("L" ++ Nat.repr (st.label_counter + 1))⟩]) := by
          apply mem_labelDefs_of_label _ none none
          simp [List.mem_append]
        simp only [List.mem_append, List.mem_cons, List.mem_singleton] at hi
        rcases hi with ((((hi | hi) | hi) | hi) | hi)
        · rcases hi with rfl | hi
          · simp at hop
          · cases hi
        · rcases hop with hop | hop
          · exact absurd hop (hcop i hi).1
          · exact absurd hop (hcop i hi).2.1
        · rcases hi with rfl | hi
          · exact ⟨"L" ++ Nat.repr (st.label_counter + 1), rfl, hend⟩
          · cases hi
        · obtain ⟨t, ht1, ht2⟩ := hbcl i hi hop
          refine ⟨t, ht1, ?_⟩
          simp only [labelDefs_append, List.mem_append]
          exact Or.inl (Or.inr ht2)
        · rcases hi with rfl | hi
          · exact ⟨"L" ++ Nat.repr st.label_counter, rfl, hstart⟩
          · rcases hi with rfl | hi
            · simp at hop
            · cases hi
  | ifStmt c tb eb =>
      intro st
      obtain ⟨dc, hc, hcop⟩ := genExpr_decomp c st
      obtain ⟨dt, ht, htcl⟩ := genStmts_decomp tb
        { (genExpr st c).1 with
            label_counter := (genExpr st c).1.label_counter + 2,
            instrs := (genExpr st c).1.instrs ++
              [⟨TACOp.IF_FALSE, some (Atom.strv (genExpr st c).2), none,
                some ("L" ++ Nat.repr (genExpr st c).1.label_counter)⟩] }
      cases eb with
      | none =>
          refine ⟨dc ++
              [⟨TACOp.IF_FALSE, some (Atom.strv (genExpr st c).2), none,
                some ("L" ++ Nat.repr (genExpr st c).1.label_counter)⟩] ++ dt ++
              [⟨TACOp.GOTO, none, none,
                some ("L" ++ Nat.repr ((genExpr st c).1.label_counter + 1))⟩,
               ⟨TACOp.LABEL, none, none,
                some ("L" ++ Nat.repr (genExpr st c).1.label_counter)⟩] ++
              [⟨TACOp.LABEL, none, none,
                some ("L" ++ Nat.repr ((genExpr st c).1.label_counter + 1))⟩], ?_, ?_⟩
          · simp only [genStmt]
            rw [ht]
            simp only [List.append_assoc]
            rw [hc]
            simp [List.append_assoc]
          · intro i hi hop
            have helse : ("L" ++ Nat.repr (genExpr st c).1.label_counter) ∈ labelDefs
                (dc ++
                  [⟨TACOp.IF_FALSE, some (Atom.strv (genExpr st c).2), none,
                    some ("L" ++ Nat.repr (genExpr st c).1.label_counter)⟩] ++ dt ++
                  [⟨TACOp.GOTO, none, none,
                    some ("L" ++ Nat.repr ((genExpr st c).1.label_counter + 1))⟩,
                   ⟨TACOp.LABEL, none, none,
                    some ("L" ++ Nat.repr (genExpr st c).1.label_counter)⟩] ++
                  [⟨TACOp.LABEL, none, none,
                    some ("L" ++ Nat.repr ((genExpr st c).1.label_counter + 1))⟩]) := by
              apply mem_labelDefs_of_label _ none none
              simp [List.mem_append]
            have hend : ("L" ++ Nat.repr ((genExpr st c).1.label_counter + 1)) ∈ labelDefs
                (dc ++
                  [⟨TACOp.IF_FALSE, some (Atom.strv (genExpr st c).2), none,
                    some ("L" ++ Nat.repr (genExpr st c).1.label_counter)⟩] ++ dt ++
                  [⟨TACOp.GOTO, none, none,
                    some ("L" ++ Nat.repr ((genExpr st c).1.label_counter + 1))⟩,
                   ⟨TACOp.LABEL, none, none,
                    some ("L" ++ Nat.repr (genExpr st c).1.label_counter)⟩] ++
                  [⟨TACOp.LABEL, none, none,
                    some ("L" ++ Nat.repr ((genExpr st c).1.label_counter + 1))⟩]) := by
              apply mem_labelDefs_of_label _ none none
              simp [List.mem_append]
            simp only [List.mem_append, List.mem_cons, List.mem_singleton] at hi
            rcases hi with ((((hi | hi) | hi) | hi) | hi)
            · rcases hop with hop | hop
              · exact absurd hop (hcop i hi).1
              · exact absurd hop (hcop i hi).2.1
            · rcases hi with rfl | hi
              · exact ⟨"L" ++ Nat.repr (genExpr st c).1.label_counter, rfl, helse⟩
              · cases hi
            · obtain ⟨t, ht1, ht2⟩ := htcl i hi hop
              refine ⟨t, ht1, ?_⟩
              simp only [labelDefs_append, List.mem_append]
              exact Or.inl (Or.inl (Or.inr ht2))
            · rcases hi with rfl | hi
              · exact ⟨"L" ++ Nat.repr ((genExpr st c).1.label_counter + 1), rfl, hend⟩
              · rcases hi with rfl | hi
                · simp at hop
                · cases hi
            · rcases hi with rfl | hi
              · simp at hop
              · cases hi
      | some el =>
          obtain ⟨de, he, hecl⟩ := genStmts_decomp el
            { (genStmts
                { (genExpr st c).1 with
                    label_counter := (genExpr st c).1.label_counter + 2,
                    instrs := (genExpr st c).1.instrs ++
                      [⟨TACOp.IF_FALSE, some (Atom.strv (genExpr st c).2), none,
                        some ("L" ++ Nat.repr (genExpr st c).1.label_counter)⟩] } tb)
              with
                instrs := (genStmts
                  { (genExpr st c).1 with
                      label_counter := (genExpr st c).1.label_counter + 2,
                      instrs := (genExpr st c).1.instrs ++
                        [⟨TACOp.IF_FALSE, some (Atom.strv (genExpr st c).2), none,
                          some ("L" ++ Nat.repr (genExpr st c).1.label_counter)⟩] } tb).instrs
                  ++
                  [⟨TACOp.GOTO, none, none,
                    some ("L" ++ Nat.repr ((genExpr st c).1.label_counter + 1))⟩,
                   ⟨TACOp.LABEL, none, none,
                    some ("L" ++ Nat.repr (genExpr st c).1.label_counter)⟩] }
          refine ⟨dc ++
              [⟨TACOp.IF_FALSE, some (Atom.strv (genExpr st c).2), none,
                some ("L" ++ Nat.repr (genExpr st c).1.label_counter)⟩] ++ dt ++
              [⟨TACOp.GOTO, none, none,
                some ("L" ++ Nat.repr ((genExpr st c).1.label_counter + 1))⟩,
               ⟨TACOp.LABEL, none, none,
                some ("L" ++ Nat.repr (genExpr st c).1.label_counter)⟩] ++ de ++
              [⟨TACOp.LABEL, none, none,
                some ("L" ++ Nat.repr ((genExpr st c).1.label_counter + 1))⟩], ?_, ?_⟩
          · simp only [genStmt]
            rw [he]
            simp only [List.append_assoc]
            rw [ht]
            simp only [List.append_assoc]
            rw [hc]
            simp [List.append_assoc]
          · intro i hi hop
            have helse : ("L" ++ Nat.repr (genExpr st c).1.label_counter) ∈ labelDefs
                (dc ++
                  [⟨TACOp.IF_FALSE, some (Atom.strv (genExpr st c).2), none,
                    some ("L" ++ Nat.repr (genExpr st c).1.label_counter)⟩] ++ dt ++
                  [⟨TACOp.GOTO, none, none,
                    some ("L" ++ Nat.repr ((genExpr st c).1.label_counter + 1))⟩,
                   ⟨TACOp.LABEL, none, none,
                    some ("L" ++ Nat.repr (genExpr st c).1.label_counter)⟩] ++ de ++
                  [⟨TACOp.LABEL, none, none,
                    some ("L" ++ Nat.repr ((genExpr st c).1.label_counter + 1))⟩]) := by
              apply mem_labelDefs_of_label _ none none
              simp [List.mem_append]
            have hend : ("L" ++ Nat.repr ((genExpr st c).1.label_counter + 1)) ∈ labelDefs
                (dc ++
                  [⟨TACOp.IF_FALSE, some (Atom.strv (genExpr st c).2), none,
                    some ("L" ++ Nat.repr (genExpr st c).1.label_counter)⟩] ++ dt ++
                  [⟨TACOp.GOTO, none, none,
                    some ("L" ++ Nat.repr ((genExpr st c).1.label_counter + 1))⟩,
                   ⟨TACOp.LABEL, none, none,
                    some ("L" ++ Nat.repr (genExpr st c).1.label_counter)⟩] ++ de ++
                  [⟨TACOp.LABEL, none, none,
                    some ("L" ++ Nat.repr ((genExpr st c).1.label_counter + 1))⟩]) := by
              apply mem_labelDefs_of_label _ none none
              simp [List.mem_append]
            simp only [List.mem_append, List.mem_cons, List.mem_singleton] at hi
            rcases hi with (((((hi | hi) | hi) | hi) | hi) | hi)
            · rcases hop with hop | hop
              · exact absurd hop (hcop i hi).1
              · exact absurd hop (hcop i hi).2.1
            · rcases hi with rfl | hi
              · exact ⟨"L" ++ Nat.repr (genExpr st c).1.label_counter, rfl, helse⟩
              · cases hi
            · obtain ⟨t, ht1, ht2⟩ := htcl i hi hop
              refine ⟨t, ht1, ?_⟩
              simp only [labelDefs_append, List.mem_append]
              exact Or.inl (Or.inl (Or.inl (Or.inr ht2)))
            · rcases hi with rfl | hi
              · exact ⟨"L" ++ Nat.repr ((genExpr st c).1.label_counter + 1), rfl, hend⟩
              · rcases hi with rfl | hi
                · simp at hop
                · cases hi
            · obtain ⟨t, ht1, ht2⟩ := hecl i hi hop
              refine ⟨t, ht1, ?_⟩
              simp only [labelDefs_append, List.mem_append]
              exact Or.inl (Or.inr ht2)
            · rcases hi with rfl | hi
              · simp at hop
              · cases hi

/-- Statement-sequence generation appends a jump-closed block. -/
theorem genStmts_decomp (ss : StmtList) : ∀ st : GenState, ∃ d,
    (genStmts st ss).instrs = st.instrs ++ d ∧ jumpsClosed d := by
  cases ss with
  | nil =>
      intro st
      exact ⟨[], by simp [genStmts], jumpsInto_of_no_jumps (by intro i hi; cases hi)⟩
  | cons s rest =>
      intro st
      obtain ⟨d1, h1, hcl1⟩ := genStmt_decomp s st
      obtain ⟨d2, h2, hcl2⟩ := genStmts_decomp rest (genStmt st s)
      refine ⟨d1 ++ d2, ?_, ?_⟩
      · simp only [genStmts]
        rw [h2, h1, List.append_assoc]
      · have m1 : jumpsInto d1 (labelDefs (d1 ++ d2)) :=
          jumpsInto_mono hcl1 (by
            intro t htm
            rw [labelDefs_append]
            exact List.mem_append.mpr (Or.inl htm))
        have m2 : jumpsInto d2 (labelDefs (d1 ++ d2)) :=
          jumpsInto_mono hcl2 (by
            intro t htm
            rw [labelDefs_append]
            exact List.mem_append.mpr (Or.inr htm))
        exact jumpsInto_append m1 m2
end

/-- `_load_operand` emits only `PUSH` or `LOAD`. -/
theorem loadOperand_op (a : Option Atom) :
    (loadOperand a).op = BytecodeOp.PUSH ∨ (loadOperand a).op = BytecodeOp.LOAD := by
  rcases a with _ | (n | b | t) <;> simp [loadOperand]

/-- `_load_operand` never emits a jump. -/
theorem not_jump_loadOperand (a : Option Atom) :
    ¬((loadOperand a).op = BytecodeOp.JUMP ∨
      (loadOperand a).op = BytecodeOp.JUMP_IF_FALSE) := by
  rcases loadOperand_op a with h | h <;> rw [h] <;> simp

/-- The only jumps emitted by `_generate_instruction` come from `GOTO`
and `IF_FALSE`, and carry the TAC instruction's result as argument. -/
theorem genInstrB_jump (i : TACInstruction) (j : BytecodeInstruction)
    (hj : j ∈ genInstrB i)
    (hop : j.op = BytecodeOp.JUMP ∨ j.op = BytecodeOp.JUMP_IF_FALSE) :
    (i.op = TACOp.GOTO ∨ i.op = TACOp.IF_FALSE) ∧ j.arg = argOfResult i.result := by
  rcases i with ⟨op, a1, a2, r⟩
  have hnl1 := not_jump_loadOperand a1
  have hnl2 := not_jump_loadOperand a2
  cases op <;> simp [genInstrB, isBinTac] at hj <;>
    (repeat' rcases hj with rfl | hj) <;>
    first
      | exact absurd hop hnl1
      | exact absurd hop hnl2
      | exact ⟨Or.inl rfl, rfl⟩
      | exact ⟨Or.inr rfl, rfl⟩
      | (split at hop <;> simp_all)
      | simp_all [bcOpOfTac]

/-- Label resolution never changes an instruction's op. -/
theorem resolveLabel_op (labels : List (String × Nat)) (j : BytecodeInstruction) :
    (resolveLabel labels j).op = j.op := by
  unfold resolveLabel
  split
  · split
    · split <;> rfl
    · rfl
  · rfl

/-- `labelDefs` over a cons whose head is a named label. -/
theorem labelDefs_cons_label (i : TACInstruction) (rest : List TACInstruction)
    (s0 : String) (hop : i.op = TACOp.LABEL) (hr : i.result = some s0) :
    labelDefs (i :: rest) = s0 :: labelDefs rest := by
  simp [labelDefs, List.filterMap_cons, hop, hr]

/-- `labelDefs` over a cons whose head is not a label. -/
theorem labelDefs_cons_not_label (i : TACInstruction) (rest : List TACInstruction)
    (hop : ¬i.op = TACOp.LABEL) :
    labelDefs (i :: rest) = labelDefs rest := by
  simp [labelDefs, List.filterMap_cons, hop]

/-- `labelDefs` over a cons whose head is an unnamed label. -/
theorem labelDefs_cons_label_none (i : TACInstruction) (rest : List TACInstruction)
    (hop : i.op = TACOp.LABEL) (hr : i.result = none) :
    labelDefs (i :: rest) = labelDefs rest := by
  simp [labelDefs, List.filterMap_cons, hop, hr]

/-- All recorded label addresses stay bounded by the emitted bytecode
length as the first pass proceeds. -/
theorem bcPass1_labels_bound (l : List TACInstruction) : ∀ st : BCState,
    (∀ p ∈ st.labels, p.2 ≤ st.bytecode.length) →
    ∀ p ∈ (bcPass1 st l).labels, p.2 ≤ (bcPass1 st l).bytecode.length := by
  induction l with
  | nil => intro st h; exact h
  | cons i rest ih =>
      intro st h
      simp only [bcPass1]
      split
      · apply ih
        intro p hp
        rcases hr : i.result with _ | s
        · rw [hr] at hp
          exact h p hp
        · rw [hr] at hp
          rcases List.mem_cons.mp hp with rfl | hp
        

          · exact Nat.le_refl _
          · exact h p hp
      · apply ih
        intro p hp
        refine Nat.le_trans (h p hp) ?_
        simp

/-- Every label defined in the TAC list (and every label already
recorded) has an entry in the final label dictionary. -/
theorem bcPass1_labels_complete (l : List TACInstruction) : ∀ (st : BCState) (s : String),
    (s ∈ labelDefs l ∨ (st.labels.lookup s).isSome = true) →
    ((bcPass1 st l).labels.lookup s).isSome = true := by
  induction l with
  | nil =>
      intro st s h
      rcases h with h | h
      · simp [labelDefs] at h
      · exact h
  | cons i rest ih =>
      intro st s h
      simp only [bcPass1]
      split
      · rename_i hlab
        rcases hr : i.result with _ | s0
        · simp only [hr]
          apply ih
          rcases h with h | h
          · rw [labelDefs_cons_label_none i rest hlab hr] at h
            exact Or.inl h
          · exact Or.inr h
        · simp only [hr]
          apply ih
          rcases h with h | h
          · rw [labelDefs_cons_label i rest s0 hlab hr] at h
            rcases List.mem_cons.mp h with rfl | h
            · right
              simp [List.lookup_cons]
            · exact Or.inl h
          · exact Or.inr (lookup_cons_isSome _ _ _ _ h)
      · rename_i hlab
        apply ih
        rcases h with h | h
        · rw [labelDefs_cons_not_label i rest hlab] at h
          exact Or.inl h
        · exact Or.inr h

/-- All jumps in the bytecode produced by the first pass target labels
from `L`, provided the TAC jumps do. -/
theorem bcPass1_jumps (L : List String) (l : List TACInstruction) :
    ∀ st : BCState, jumpsInto l L → (∀ j ∈ st.bytecode, jumpArgIn L j) →
    ∀ j ∈ (bcPass1 st l).bytecode, jumpArgIn L j := by
  induction l with
  | nil => intro st _ hst; exact hst
  | cons i rest ih =>
      intro st hl hst
      have hl' : jumpsInto rest L := fun i' h' => hl i' (List.mem_cons_of_mem _ h')
      simp only [bcPass1]
      split
      · exact ih _ hl' hst
      · apply ih _ hl'
        intro j hj
        rcases List.mem_append.mp hj with hj | hj
        · exact hst j hj
        · intro hop
          obtain ⟨hiop, harg⟩ := genInstrB_jump i j hj hop
          obtain ⟨s, hs1, hs2⟩ := hl i (List.mem_cons_self _ _) hiop
          refine ⟨s, ?_, hs2⟩
          rw [harg, hs1]
          rfl

/-- The TAC emitted for a whole program is jump-closed. -/
theorem tacGen_jumpsClosed (p : StmtList) : jumpsClosed (tacGen p) := by
  obtain ⟨d, hd, hcl⟩ := genStmts_decomp p ⟨[], 0, 0⟩
  unfold tacGen
  rw [hd]
  simpa using hcl

/-- C7: after bytecode emission for generator-produced TAC, every
`JUMP` and `JUMP_IF_FALSE` argument is an integer index into the
bytecode vector (in particular in `[0, len)`, the bound `0 ≤ n` being
inherent in `n : Nat`); no jump argument remains a label string. -/
theorem jump_targets_are_valid_indices (p : StmtList) :
    ∀ j ∈ bytecodeGenerate (tacGen p),
      (j.op = BytecodeOp.JUMP ∨ j.op = BytecodeOp.JUMP_IF_FALSE) →
      ∃ n : Nat, j.arg = some (Atom.intv (Int.ofNat n)) ∧
        n < (bytecodeGenerate (tacGen p)).length := by
  intro j hj hop
  have hclosed : jumpsInto (tacGen p) (labelDefs (tacGen p)) := tacGen_jumpsClosed p
  rw [bytecodeGenerate] at hj
  obtain ⟨j0, hj0mem, hj0⟩ := List.mem_map.mp hj
  have hj0op : j0.op = j.op := by rw [← hj0, resolveLabel_op]
  rcases List.mem_append.mp hj0mem with hj0bc | hj0halt
  · have hjump : jumpArgIn (labelDefs (tacGen p)) j0 :=
      bcPass1_jumps (labelDefs (tacGen p)) (tacGen p) (BCState.mk [] []) hclosed
        (by intro j' hj'; cases hj') j0 hj0bc
    obtain ⟨s, hs1, hs2⟩ := hjump (by rw [hj0op]; exact hop)
    have hlook : (((bcPass1 (BCState.mk [] []) (tacGen p)).labels.lookup s).isSome) = true :=
      bcPass1_labels_complete (tacGen p) (BCState.mk [] []) s (Or.inl hs2)
    obtain ⟨n, hn⟩ := Option.isSome_iff_exists.mp hlook
    have hmem : (s, n) ∈ (bcPass1 (BCState.mk [] []) (tacGen p)).labels :=
      mem_of_lookup_eq_some hn
    have hbound : n ≤ (bcPass1 (BCState.mk [] []) (tacGen p)).bytecode.length :=
      bcPass1_labels_bound (tacGen p) (BCState.mk [] [])
        (by intro p' hp'; cases hp') (s, n) hmem
    refine ⟨n, ?_, ?_⟩
    · rw [← hj0]
      unfold resolveLabel
      rw [if_pos (by rw [hj0op]; exact hop)]
      rw [hs1]
      simp [hn]
    · rw [bytecodeGenerate]
      rw [List.length_map, List.length_append]
      simp only [List.length_singleton]
      omega
  · exfalso
    have : j0 = BytecodeInstruction.mk BytecodeOp.HALT none := by
      simpa using hj0halt
    rw [this] at hj0op
    rcases hop with hop | hop <;> rw [← hj0op] at hop <;> simp at hop

/-- C7 witness: the `JUMP` emitted for the if/else of `progIf` resolves
to the integer index 21 inside the 22-instruction bytecode vector. -/
theorem jump_targets_are_valid_indices_witness :
    (BytecodeInstruction.mk BytecodeOp.JUMP (some (Atom.intv 21)) ∈
      bytecodeGenerate (tacGen progIf)) ∧
    ∃ n : Nat,
      (BytecodeInstruction.mk BytecodeOp.JUMP (some (Atom.intv 21))).arg =
        some (Atom.intv (Int.ofNat n)) ∧
      n < (bytecodeGenerate (tacGen progIf)).length :=
  ⟨by decide,
    jump_targets_are_valid_indices progIf
      (BytecodeInstruction.mk BytecodeOp.JUMP (some (Atom.intv 21)))
      (by decide) (Or.inl rfl)⟩
